import Mathlib

/-!
Verification of the C++ placement engine
(`backend/cpp_placement_service/src/placement_logic.cpp`) against its
natural-language specification.

Shallow embedding conventions:
* C++ `double` coordinates are modelled as exact rationals `ℚ`; every
  comparison in the source is an ε-comparison with `COORD_TOLERANCE = 1e-6`,
  translated verbatim.
* `std::map<std::string, _>` is modelled as an association list kept sorted
  by key (`StrMap`), matching `std::map`'s sorted iteration order.
* `std::sort` guarantees only that its output is a permutation of its input
  that is sorted with respect to the comparator; it does *not* guarantee
  stability.  The engine is therefore parametrised by the sorting function
  `sortImpl`, constrained by `StdSortOk` (the C++ standard's postcondition
  for `std::sort` with comparator `a.priority > b.priority`).
  `stableSortByPriority` is one conforming implementation, used to evaluate
  concrete scenarios.
* The source file contains two definitions of `boxes_overlap`, `is_stable`,
  `find_spot_in_container` and `suggest_placements_cpp`; the first set are
  stubs ("not fully implemented yet").  The real implementations (the second
  occurrence of each) are embedded here.
-/

namespace PlacementService

/-- `COORD_TOLERANCE = 1e-6`, the ε used for all coordinate comparisons. -/
def COORD_TOLERANCE : ℚ := 1 / 1000000

/-- Mirror of `struct Coordinates { double width, depth, height; }`. -/
structure Coordinates where
  width : ℚ
  depth : ℚ
  height : ℚ
deriving DecidableEq, Repr

/-- Mirror of `struct Position { Coordinates startCoordinates, endCoordinates; }`. -/
structure Position where
  startCoordinates : Coordinates
  endCoordinates : Coordinates
deriving DecidableEq, Repr

/-- Mirror of `struct ItemData`. -/
structure ItemData where
  itemId : String
  name : String
  width : ℚ
  depth : ℚ
  height : ℚ
  mass : ℚ
  priority : Int
  expiryDate : Option String
  usageLimit : Option Int
  preferredZone : Option String
deriving DecidableEq, Repr

/-- Mirror of `struct ContainerData`. -/
structure ContainerData where
  containerId : String
  zone : String
  width : ℚ
  depth : ℚ
  height : ℚ
deriving DecidableEq, Repr

/-- C++ default construction of `ContainerData` (empty strings, `0.0` sizes). -/
instance : Inhabited ContainerData := ⟨⟨"", "", 0, 0, 0⟩⟩

/-- Mirror of `struct PlacementInfo`. -/
structure PlacementInfo where
  itemId : String
  containerId : String
  position : Position
  priority : Int
deriving DecidableEq, Repr

/-- Mirror of `struct PlacementResult`. -/
structure PlacementResult where
  itemId : String
  containerId : String
  position : Position
deriving DecidableEq, Repr

/-- Mirror of `struct RearrangementStep`. -/
structure RearrangementStep where
  step : Int
  action : String
  itemId : String
  fromContainer : Option String
  fromPosition : Option Position
  toContainer : String
  toPosition : Position
deriving DecidableEq, Repr

/-- Mirror of `struct PlacementOutput`. -/
structure PlacementOutput where
  success : Bool
  error : Option String
  placements : List PlacementResult
  rearrangements : List RearrangementStep
  failedItemIds : List String
deriving DecidableEq, Repr

/-- Mirror of `using Orientation = std::tuple<double, double, double>`
(the `(width, depth, height)` of an item in a given orientation). -/
structure Orientation where
  w : ℚ
  d : ℚ
  h : ℚ
deriving DecidableEq, Repr

/-- `bool boxes_overlap(const Position&, const Position&)` — the real
definition (second occurrence in the source).  True iff the boxes have
strictly positive overlap on every axis, up to `COORD_TOLERANCE`. -/
def boxes_overlap (pos1 pos2 : Position) : Bool :=
  let no_overlap_w :=
    decide (pos1.endCoordinates.width ≤ pos2.startCoordinates.width + COORD_TOLERANCE) ||
    decide (pos2.endCoordinates.width ≤ pos1.startCoordinates.width + COORD_TOLERANCE)
  let no_overlap_d :=
    decide (pos1.endCoordinates.depth ≤ pos2.startCoordinates.depth + COORD_TOLERANCE) ||
    decide (pos2.endCoordinates.depth ≤ pos1.startCoordinates.depth + COORD_TOLERANCE)
  let no_overlap_h :=
    decide (pos1.endCoordinates.height ≤ pos2.startCoordinates.height + COORD_TOLERANCE) ||
    decide (pos2.endCoordinates.height ≤ pos1.startCoordinates.height + COORD_TOLERANCE)
  !(no_overlap_w || no_overlap_d || no_overlap_h)

/-- `bool is_stable(...)` — the real definition (second occurrence in the
source): stable iff on the floor, or some already placed item's top is at the
candidate's base height and the two horizontal projections overlap. -/
def is_stable (candidate_pos : Position) (container : ContainerData)
    (current_placements_in_container : List PlacementInfo) : Bool :=
  if |candidate_pos.startCoordinates.height| < COORD_TOLERANCE then
    true
  else
    current_placements_in_container.any fun existing_placement =>
      decide (|existing_placement.position.endCoordinates.height -
                candidate_pos.startCoordinates.height| < COORD_TOLERANCE) &&
      (!(decide (candidate_pos.endCoordinates.width ≤
            existing_placement.position.startCoordinates.width + COORD_TOLERANCE) ||
         decide (existing_placement.position.endCoordinates.width ≤
            candidate_pos.startCoordinates.width + COORD_TOLERANCE))) &&
      (!(decide (candidate_pos.endCoordinates.depth ≤
            existing_placement.position.startCoordinates.depth + COORD_TOLERANCE) ||
         decide (existing_placement.position.endCoordinates.depth ≤
            candidate_pos.startCoordinates.depth + COORD_TOLERANCE)))

/-- Insertion into a sorted list of rationals; models insertion into the
`std::set<double>` of candidate base heights (iterated in ascending order). -/
def insertSorted (x : ℚ) : List ℚ → List ℚ
  | [] => [x]
  | y :: ys => if x ≤ y then x :: y :: ys else y :: insertSorted x ys

/-- The candidate base-height set of `find_spot_in_container`:
`{0.0}` plus the top heights of the placed items, deduplicated under the
coarser tolerance `COORD_TOLERANCE * 10`, in ascending order. -/
def possible_base_heights (placed : List PlacementInfo) : List ℚ :=
  placed.foldl
    (fun hs p =>
      if hs.any (fun h =>
          decide (|p.position.endCoordinates.height - h| < COORD_TOLERANCE * 10)) then
        hs
      else
        insertSorted p.position.endCoordinates.height hs)
    [0]

/-- C++ `static_cast<int>` applied to a (model of a) `double`:
truncation toward zero. -/
def cppIntOfRat (q : ℚ) : Int := Int.tdiv q.num (Int.ofNat q.den)

/-- The six axis-aligned orientations of an item, in the fixed source order. -/
def orientationsOf (item_req : ItemData) : List Orientation :=
  [⟨item_req.width, item_req.depth, item_req.height⟩,
   ⟨item_req.width, item_req.height, item_req.depth⟩,
   ⟨item_req.depth, item_req.width, item_req.height⟩,
   ⟨item_req.depth, item_req.height, item_req.width⟩,
   ⟨item_req.height, item_req.width, item_req.depth⟩,
   ⟨item_req.height, item_req.depth, item_req.width⟩]

/-! `find_spot_in_container` — the real definition (second occurrence in the
source).  Nested loops with early return are rendered as nested
`List.findSome?`; a C++ `continue` is a `none` branch.  Each loop level is a
named function. -/

/-- The innermost `for` loop over start-width steps of the source, at a
fixed orientation, base height and start depth. -/
def spotWLoop (container : ContainerData)
    (current_placements_in_container : List PlacementInfo)
    (orientation : Orientation) (width_increment : ℚ) (num_w_steps : Nat)
    (start_d start_h : ℚ) : Option (Position × Orientation) :=
  (List.range num_w_steps).findSome? fun (w_idx : Nat) =>
    let start_w : ℚ :=
      max 0 (min ((w_idx : ℚ) * width_increment)
                 (container.width - orientation.w))
    if start_w + orientation.w > container.width + COORD_TOLERANCE then
      none
    else
      let candidate_pos : Position :=
        ⟨⟨start_w, start_d, start_h⟩,
         ⟨start_w + orientation.w, start_d + orientation.d,
          start_h + orientation.h⟩⟩
      if candidate_pos.endCoordinates.width > container.width + COORD_TOLERANCE ∨
         candidate_pos.endCoordinates.depth > container.depth + COORD_TOLERANCE ∨
         candidate_pos.endCoordinates.height > container.height + COORD_TOLERANCE then
        none
      else if current_placements_in_container.any fun existing_placement =>
          boxes_overlap candidate_pos existing_placement.position then
        none
      else if !is_stable candidate_pos container
          current_placements_in_container then
        none
      else
        some (candidate_pos, orientation)

/-- The `for (y …)` loop of the source over start-depth steps, at a fixed
orientation and base height. -/
def spotDLoop (container : ContainerData)
    (current_placements_in_container : List PlacementInfo)
    (orientation : Orientation) (width_increment depth_increment : ℚ)
    (num_w_steps num_d_steps : Nat) (is_high_priority : Bool)
    (start_h : ℚ) : Option (Position × Orientation) :=
  (List.range num_d_steps).findSome? fun (d_idx : Nat) =>
    let start_d0 : ℚ :=
      if is_high_priority then (d_idx : ℚ) * depth_increment
      else container.depth - ((d_idx : ℚ) + 1) * depth_increment
    let start_d : ℚ := max 0 (min start_d0 (container.depth - orientation.d))
    if start_d + orientation.d > container.depth + COORD_TOLERANCE then
      none
    else
      spotWLoop container current_placements_in_container orientation
        width_increment num_w_steps start_d start_h

/-- The outer orientation and base-height loops of `find_spot_in_container`. -/
def find_spot_in_container (item_req : ItemData) (container : ContainerData)
    (current_placements_in_container : List PlacementInfo)
    (is_high_priority : Bool) : Option (Position × Orientation) :=
  let orientations := orientationsOf item_req
  let width_increment : ℚ := max (container.width / 25) (1 / 50)
  let depth_increment : ℚ := max (container.depth / 25) (1 / 50)
  let num_w_steps : Int := cppIntOfRat (container.width / width_increment) + 2
  let num_d_steps : Int := cppIntOfRat (container.depth / depth_increment) + 2
  let heights := possible_base_heights current_placements_in_container
  orientations.findSome? fun orientation =>
    if orientation.w > container.width + COORD_TOLERANCE ∨
       orientation.d > container.depth + COORD_TOLERANCE ∨
       orientation.h > container.height + COORD_TOLERANCE then
      none
    else
      heights.findSome? fun start_h =>
        if start_h + orientation.h > container.height + COORD_TOLERANCE then
          none
        else
          spotDLoop container current_placements_in_container orientation
            width_increment depth_increment num_w_steps.toNat num_d_steps.toNat
            is_high_priority start_h

/-! ## `std::map<std::string, _>` model

An association list kept sorted by key in strictly increasing `String` order,
matching `std::map`'s unique keys and sorted iteration. -/

/-- Association list sorted by `String` key (model of `std::map<std::string, α>`). -/
abbrev StrMap (α : Type) : Type := List (String × α)

/-- The empty map. -/
def StrMap.empty {α : Type} : StrMap α := []

/-- Insert-or-assign, keeping the list sorted by key. -/
def StrMap.insert {α : Type} (k : String) (v : α) : StrMap α → StrMap α
  | [] => [(k, v)]
  | (k', v') :: rest =>
    if k < k' then (k, v) :: (k', v') :: rest
    else if k = k' then (k, v) :: rest
    else (k', v') :: StrMap.insert k v rest

/-- Lookup. -/
def StrMap.find? {α : Type} (k : String) : StrMap α → Option α
  | [] => none
  | (k', v') :: rest => if k = k' then some v' else StrMap.find? k rest

/-- The entries in iteration (key-ascending) order. -/
def StrMap.toList {α : Type} (m : StrMap α) : List (String × α) := m

/-- Build a map from a list of bindings (later bindings overwrite earlier
ones, as when a `std::map` is populated by successive `operator[]` writes). -/
def StrMap.ofList {α : Type} (l : List (String × α)) : StrMap α :=
  l.foldl (fun m kv => StrMap.insert kv.1 kv.2 m) StrMap.empty

/-! ## `std::sort` model

`std::sort(v.begin(), v.end(), [](a, b){ return a.priority > b.priority; })`
guarantees only: the result is a permutation of the input that is sorted with
respect to the comparator (equal-priority order is unspecified — `std::sort`
is not stable).  The engine is parametrised by the sorting function, and
`StdSortOk` captures the guarantee. -/

/-- `prioGE a b` : `a` may precede `b` in the sorted order
(`¬ (b.priority > a.priority)`, i.e. `b.priority ≤ a.priority`). -/
def prioGE (a b : ItemData) : Prop := b.priority ≤ a.priority

instance : DecidableRel prioGE := fun a b => inferInstanceAs (Decidable (_ ≤ _))

instance : IsTotal ItemData prioGE := ⟨fun a b => le_total b.priority a.priority⟩

instance : IsTrans ItemData prioGE := ⟨fun _ _ _ h h' => le_trans h' h⟩

/-- The postcondition the C++ standard gives for
`std::sort` with comparator `a.priority > b.priority`: the output is a
permutation of the input, sorted in non-increasing priority order. -/
def StdSortOk (sortImpl : List ItemData → List ItemData) : Prop :=
  ∀ l : List ItemData, (sortImpl l).Perm l ∧ (sortImpl l).Sorted prioGE

/-- One conforming `std::sort` behaviour: a stable sort by descending
priority (used to evaluate the concrete scenarios). -/
def stableSortByPriority (l : List ItemData) : List ItemData :=
  l.insertionSort prioGE

/-- Another conforming `std::sort` behaviour: stable-sort, then swap the two
front elements when they carry equal priority.  Used to exhibit that the
code's contract does not fix the relative order of equal-priority items. -/
def tieSwapSortByPriority (l : List ItemData) : List ItemData :=
  match stableSortByPriority l with
  | a :: b :: rest => if a.priority = b.priority then b :: a :: rest else a :: b :: rest
  | l' => l'

/-! ## The engine: `suggest_placements_cpp`

Phase 1 and Phase 3 are folds over the (sorted) incoming items; the loop
bodies are literal translations of the source.  `std::cout` logging is
dropped (it does not affect the returned value). -/

/-- State carried through the Phase-1 loop
(`simulation_placements`, `processed_item_ids`, `final_placements_map`,
`items_requiring_placement_pass_2`). -/
structure Phase1State where
  sim : StrMap (List PlacementInfo)
  processed : List String
  finalMap : StrMap PlacementResult
  pass2 : List ItemData

/-- State carried through the Phase-3 loop (adds the output accumulator
fields `failedItemIds`, `success`, `error`). -/
structure Phase3State where
  sim : StrMap (List PlacementInfo)
  processed : List String
  finalMap : StrMap PlacementResult
  failed : List String
  success : Bool
  error : Option String

/-- Phase-1 inner loop: walk `container_ids`; in each container of the
preferred zone, try the spot finder; first hit wins.  Returns the chosen
container id and position. -/
def tryPreferredContainers (containers_map : StrMap ContainerData)
    (sim : StrMap (List PlacementInfo)) (item_req : ItemData)
    (is_high_prio : Bool) (pref_zone : String) :
    List String → Option (String × Position)
  | [] => none
  | container_id :: rest =>
    let container := (containers_map.find? container_id).getD default
    if container.zone = pref_zone then
      match find_spot_in_container item_req container
          ((sim.find? container_id).getD []) is_high_prio with
      | some (found_pos, _found_ori) => some (container_id, found_pos)
      | none =>
        tryPreferredContainers containers_map sim item_req is_high_prio pref_zone rest
    else
      tryPreferredContainers containers_map sim item_req is_high_prio pref_zone rest

/-- Phase-3 inner loop: walk all `container_ids`, first spot wins. -/
def tryAnyContainer (containers_map : StrMap ContainerData)
    (sim : StrMap (List PlacementInfo)) (item_req : ItemData)
    (is_high_prio : Bool) :
    List String → Option (String × Position)
  | [] => none
  | container_id :: rest =>
    let container := (containers_map.find? container_id).getD default
    match find_spot_in_container item_req container
        ((sim.find? container_id).getD []) is_high_prio with
    | some (found_pos, _found_ori) => some (container_id, found_pos)
    | none => tryAnyContainer containers_map sim item_req is_high_prio rest

/-- Commit a found spot: push into the simulated container, overwrite the
entry in `final_placements_map`, mark the item processed. -/
def commitSpot (st : Phase1State) (item_req : ItemData)
    (container_id : String) (found_pos : Position) : Phase1State :=
  { st with
    sim := StrMap.insert container_id
      (((StrMap.find? container_id st.sim).getD []) ++
        [⟨item_req.itemId, container_id, found_pos, item_req.priority⟩]) st.sim
    finalMap := StrMap.insert item_req.itemId
      ⟨item_req.itemId, container_id, found_pos⟩ st.finalMap
    processed := item_req.itemId :: st.processed }

/-- One iteration of the Phase-1 loop. -/
def phase1Step (containers_map : StrMap ContainerData) (container_ids : List String)
    (st : Phase1State) (item_req : ItemData) : Phase1State :=
  if st.processed.contains item_req.itemId then st
  else
    let is_high_prio : Bool := decide (item_req.priority ≥ 75)
    match item_req.preferredZone with
    | some pref_zone =>
      match tryPreferredContainers containers_map st.sim item_req is_high_prio
          pref_zone container_ids with
      | some (container_id, found_pos) => commitSpot st item_req container_id found_pos
      | none => { st with pass2 := st.pass2 ++ [item_req] }
    | none => { st with pass2 := st.pass2 ++ [item_req] }

/-- Commit in Phase 3 (same mutation as Phase 1, on the larger state). -/
def commitSpot3 (st : Phase3State) (item_req : ItemData)
    (container_id : String) (found_pos : Position) : Phase3State :=
  { st with
    sim := StrMap.insert container_id
      (((StrMap.find? container_id st.sim).getD []) ++
        [⟨item_req.itemId, container_id, found_pos, item_req.priority⟩]) st.sim
    finalMap := StrMap.insert item_req.itemId
      ⟨item_req.itemId, container_id, found_pos⟩ st.finalMap
    processed := item_req.itemId :: st.processed }

/-- One iteration of the Phase-3 loop. -/
def phase3Step (containers_map : StrMap ContainerData) (container_ids : List String)
    (st : Phase3State) (item_req : ItemData) : Phase3State :=
  if st.processed.contains item_req.itemId then st
  else
    let is_high_prio : Bool := decide (item_req.priority ≥ 75)
    match tryAnyContainer containers_map st.sim item_req is_high_prio container_ids with
    | some (container_id, found_pos) => commitSpot3 st item_req container_id found_pos
    | none =>
      { st with
        failed := st.failed ++ [item_req.itemId]
        processed := item_req.itemId :: st.processed
        success := false
        error := if st.error = none then
            some "Placement failed for one or more items." else st.error }

/-- The Phase-4 error string: failed ids joined with `", "`. -/
def joinFailedIds : List String → String
  | [] => ""
  | [x] => x
  | x :: rest => x ++ ", " ++ joinFailedIds rest

/-- Phase 0: `containers_map` (populated through `operator[]` writes, so a
later duplicate container id overwrites an earlier one). -/
def containersMapOf (containers_input : List ContainerData) : StrMap ContainerData :=
  containers_input.foldl (fun m c => StrMap.insert c.containerId c m) StrMap.empty

/-- Phase 0: seeding of `final_placements_map` with every live placement
(iterating `current_db_placements` in `std::map` key order). -/
def finalSeedOf (db_map : StrMap (List PlacementInfo)) : StrMap PlacementResult :=
  (StrMap.toList db_map).foldl
    (fun m pr =>
      pr.2.foldl
        (fun m placement_info =>
          StrMap.insert placement_info.itemId
            ⟨placement_info.itemId, pr.1, placement_info.position⟩ m)
        m)
    StrMap.empty

/-- Phase 4: assemble the `PlacementOutput` from the post-Phase-3 state. -/
def assembleOutput (st3 : Phase3State) : PlacementOutput :=
  ⟨st3.success,
   if st3.failed ≠ [] then
     some ("Placement incomplete. Failed items: " ++ joinFailedIds st3.failed)
   else st3.error,
   ((StrMap.toList st3.finalMap).filter (fun pr => !st3.failed.contains pr.1)).map (·.2),
   [],  -- Phase 2 is a stub: no rearrangement step is ever recorded
   st3.failed⟩

/-- `suggest_placements_cpp` — the real definition (second occurrence in the
source), parametrised by the `std::sort` behaviour `sortImpl`. -/
def suggest_placements_cpp (sortImpl : List ItemData → List ItemData)
    (items_to_place_input : List ItemData)
    (containers_input : List ContainerData)
    (current_db_placements : List (String × List PlacementInfo)) :
    PlacementOutput :=
  -- Phase 0
  let sorted_incoming_items := sortImpl items_to_place_input
  let containers_map := containersMapOf containers_input
  let container_ids : List String := containers_input.map (·.containerId)
  let db_map : StrMap (List PlacementInfo) := StrMap.ofList current_db_placements
  -- Phase 1
  let st1 : Phase1State :=
    sorted_incoming_items.foldl (phase1Step containers_map container_ids)
      ⟨db_map, [], finalSeedOf db_map, []⟩
  -- Phase 2 is a stub in the source: the backlog passes through unchanged
  let items_requiring_placement_pass_3 := st1.pass2
  -- Phase 3
  let st3 : Phase3State :=
    items_requiring_placement_pass_3.foldl (phase3Step containers_map container_ids)
      ⟨st1.sim, st1.processed, st1.finalMap, [], true, none⟩
  -- Phase 4
  assembleOutput st3

/-! ## Specification-side predicates (for stating the claims) -/

/-- Strictly positive overlap of two intervals `[s1, e1]`, `[s2, e2]` under ε
— the per-axis predicate out of which `boxes_overlap` is built. -/
def axis_overlap (s1 e1 s2 e2 : ℚ) : Prop :=
  ¬(e1 ≤ s2 + COORD_TOLERANCE ∨ e2 ≤ s1 + COORD_TOLERANCE)

/-- `axis_overlap` on the width axis of two positions. -/
def overlapW (p q : Position) : Prop :=
  axis_overlap p.startCoordinates.width p.endCoordinates.width
    q.startCoordinates.width q.endCoordinates.width

/-- `axis_overlap` on the depth axis of two positions. -/
def overlapD (p q : Position) : Prop :=
  axis_overlap p.startCoordinates.depth p.endCoordinates.depth
    q.startCoordinates.depth q.endCoordinates.depth

/-- `axis_overlap` on the height axis of two positions. -/
def overlapH (p q : Position) : Prop :=
  axis_overlap p.startCoordinates.height p.endCoordinates.height
    q.startCoordinates.height q.endCoordinates.height

/-- Spec §4.1 `in_bounds`: the position lies inside the container's cavity
within ε on every axis. -/
def in_bounds (pos : Position) (container : ContainerData) : Prop :=
  0 - COORD_TOLERANCE ≤ pos.startCoordinates.width ∧
  0 - COORD_TOLERANCE ≤ pos.startCoordinates.depth ∧
  0 - COORD_TOLERANCE ≤ pos.startCoordinates.height ∧
  pos.endCoordinates.width ≤ container.width + COORD_TOLERANCE ∧
  pos.endCoordinates.depth ≤ container.depth + COORD_TOLERANCE ∧
  pos.endCoordinates.height ≤ container.height + COORD_TOLERANCE

/-- Spec §3: positions have positive extent on every axis. -/
def posPositive (pos : Position) : Prop :=
  pos.startCoordinates.width < pos.endCoordinates.width ∧
  pos.startCoordinates.depth < pos.endCoordinates.depth ∧
  pos.startCoordinates.height < pos.endCoordinates.height

/-- View a public `PlacementResult` as a `PlacementInfo` (the priority field
is irrelevant to the geometric predicates). -/
def resultAsInfo (r : PlacementResult) : PlacementInfo :=
  ⟨r.itemId, r.containerId, r.position, 0⟩

/-- The §6 input invariants named by claim C1 (unique ids, placements
in-bounds in an existing container, pairwise non-overlapping, positive
dimensions), plus — the amendment — stability of each current placement
against the others in its container. -/
def ValidCurrentPlacements (containers_input : List ContainerData)
    (current_db_placements : List (String × List PlacementInfo)) : Prop :=
  (current_db_placements.map Prod.fst).Nodup ∧
  ((current_db_placements.map (·.2.map (·.itemId))).flatten).Nodup ∧
  ∀ pr ∈ current_db_placements,
    ∃ c, c ∈ containers_input ∧ c.containerId = pr.1 ∧
      (∀ pi ∈ pr.2, in_bounds pi.position c ∧ posPositive pi.position) ∧
      pr.2.Pairwise (fun p q => boxes_overlap p.position q.position = false) ∧
      (∀ i, (h : i < pr.2.length) →
        is_stable (pr.2.get ⟨i, h⟩).position c (pr.2.eraseIdx i) = true)

/-- §6 uniqueness of the ids involved in a job: container ids unique,
incoming item ids unique, current placement ids unique, and incoming ids
disjoint from current ones. -/
def UniqueIds (items_to_place_input : List ItemData)
    (containers_input : List ContainerData)
    (current_db_placements : List (String × List PlacementInfo)) : Prop :=
  (containers_input.map (·.containerId)).Nodup ∧
  (items_to_place_input.map (·.itemId)).Nodup ∧
  (∀ it ∈ items_to_place_input, ∀ pr ∈ current_db_placements, ∀ pi ∈ pr.2,
    it.itemId ≠ pi.itemId)

/-- §6: all item dimensions are positive. -/
def ItemDimsPositive (items_to_place_input : List ItemData) : Prop :=
  ∀ it ∈ items_to_place_input, 0 < it.width ∧ 0 < it.depth ∧ 0 < it.height

/-! ## Concrete scenario inputs -/

/-- §8 scenario 1 item A `(2, 3, 1)`, priority 50, preferred zone Z1. -/
def scn1_itemA : ItemData := ⟨"A", "A", 2, 3, 1, 1, 50, none, none, some "Z1"⟩

/-- §8 scenario 1 container C1 `(10, 10, 10)`, zone Z1. -/
def scn1_contC1 : ContainerData := ⟨"C1", "Z1", 10, 10, 10⟩

/-- §8 scenario 4 preloaded low-priority item L at `(0,0,0)-(4,4,1)`. -/
def scn4_itemL : PlacementInfo := ⟨"L", "C1", ⟨⟨0, 0, 0⟩, ⟨4, 4, 1⟩⟩, 10⟩

/-- §8 scenario 4 container C1 `(4, 4, 4)`, zone Z1. -/
def scn4_contC1 : ContainerData := ⟨"C1", "Z1", 4, 4, 4⟩

/-- §8 scenario 4 container C2 `(4, 4, 4)`, zone Z2. -/
def scn4_contC2 : ContainerData := ⟨"C2", "Z2", 4, 4, 4⟩

/-- §8 scenario 4 incoming high-priority item H `(4, 4, 2)`, priority 90. -/
def scn4_itemH : ItemData := ⟨"H", "H", 4, 4, 2, 1, 90, none, none, some "Z1"⟩

/-- An invalid input for C5: a live placement whose container id `CX` does
not appear among the job's containers. -/
def inv5_ghost : PlacementInfo := ⟨"P1", "CX", ⟨⟨0, 0, 0⟩, ⟨1, 1, 1⟩⟩, 50⟩

/-- The (only) container of the C5 invalid input. -/
def inv5_contC1 : ContainerData := ⟨"C1", "Z1", 1, 1, 1⟩

/-- Equal-priority items for C6: first in input order. -/
def tie_itemA : ItemData := ⟨"A", "A", 1, 1, 1, 1, 50, none, none, none⟩

/-- Equal-priority items for C6: second in input order. -/
def tie_itemB : ItemData := ⟨"B", "B", 1, 1, 1, 1, 50, none, none, none⟩

/-- Container for the C6 tie-order experiment. -/
def tie_cont : ContainerData := ⟨"C", "Z", 5, 5, 5⟩

/-- A floating (unsupported) but in-bounds, non-overlapping live placement:
input satisfying the §6 invariants whose output violates the stability
invariant, refuting C1 as stated. -/
def float_placement : PlacementInfo := ⟨"F", "C", ⟨⟨0, 0, 5⟩, ⟨1, 1, 6⟩⟩, 50⟩

/-- Container for the floating-placement counterexample. -/
def float_cont : ContainerData := ⟨"C", "Z", 10, 10, 10⟩

/-- A map has a binding for `k`. -/
def StrMap.hasKey {α : Type} (m : StrMap α) (k : String) : Prop :=
  ∃ v, StrMap.find? k m = some v

/-- Every value bound in the map carries its key as `itemId`. -/
def WellKeyed (m : StrMap PlacementResult) : Prop :=
  ∀ kv ∈ m, (kv.2 : PlacementResult).itemId = kv.1

/-- The success/failed/error bookkeeping invariant carried by Phase 3. -/
def OutFlagsOk (st : Phase3State) : Prop :=
  st.success = st.failed.isEmpty ∧ (st.failed = [] → st.error = none)

/-- Every processed id has a binding in `final_placements_map` (Phase 1). -/
def ProcessedHaveKeys (st : Phase1State) : Prop :=
  ∀ id ∈ st.processed, StrMap.hasKey st.finalMap id

/-- Every processed id has a binding in `final_placements_map` or has failed
(Phase 3). -/
def ProcessedKeyOrFailed (st : Phase3State) : Prop :=
  ∀ id ∈ st.processed, StrMap.hasKey st.finalMap id ∨ id ∈ st.failed

/-- An item id occurring somewhere in the simulation state. -/
def SimHasId (sim : StrMap (List PlacementInfo)) (id : String) : Prop :=
  ∃ kv ∈ StrMap.toList sim, ∃ pi ∈ kv.2, pi.itemId = id

/-- The geometric invariant of one simulated container: every placement
in-bounds with positive extent, index-wise pairwise non-overlapping with
pairwise distinct ids, and each placement stable against the others. -/
def EntryInv (c : ContainerData) (l : List PlacementInfo) : Prop :=
  (∀ pi ∈ l, in_bounds pi.position c ∧ posPositive pi.position) ∧
  (∀ i j, (hi : i < l.length) → (hj : j < l.length) → i ≠ j →
    boxes_overlap l[i].position l[j].position = false ∧
    l[i].itemId ≠ l[j].itemId) ∧
  (∀ i, (hi : i < l.length) →
    is_stable l[i].position c (l.eraseIdx i) = true)

/-- The geometric invariant of the whole simulation: every container entry
belongs to a known container and satisfies `EntryInv`. -/
def SimInv (cm : StrMap ContainerData) (sim : StrMap (List PlacementInfo)) : Prop :=
  ∀ kv ∈ StrMap.toList sim,
    ∃ c, StrMap.find? kv.1 cm = some c ∧ EntryInv c kv.2

/-- Agreement between `final_placements_map` and the simulation: every
binding points at a matching simulated placement, and every simulated
placement is bound (under globally unique ids). -/
def MapSimAgree (finalMap : StrMap PlacementResult)
    (sim : StrMap (List PlacementInfo)) : Prop :=
  (∀ kv ∈ StrMap.toList finalMap,
    ∃ l, StrMap.find? (kv.2 : PlacementResult).containerId sim = some l ∧
      ∃ pi ∈ l, pi.itemId = kv.1 ∧ pi.position = kv.2.position) ∧
  (∀ kv ∈ StrMap.toList sim, ∀ pi ∈ (kv.2 : List PlacementInfo),
    StrMap.find? pi.itemId finalMap = some ⟨pi.itemId, kv.1, pi.position⟩)

/-- No simulated placement carries a failed id. -/
def SimNotFailed (sim : StrMap (List PlacementInfo))
    (failed : List String) : Prop :=
  ∀ kv ∈ StrMap.toList sim, ∀ pi ∈ (kv.2 : List PlacementInfo),
    pi.itemId ∉ failed

/-! ## Helper lemmas -/

/-- `stableSortByPriority` is a conforming `std::sort` behaviour. -/
theorem stdSortOk_stable : StdSortOk stableSortByPriority := fun l =>
  ⟨List.perm_insertionSort prioGE l, List.sorted_insertionSort prioGE l⟩

/-- Any conforming sort fixes the empty list. -/
theorem StdSortOk.sort_nil {s : List ItemData → List ItemData}
    (h : StdSortOk s) : s [] = [] :=
  List.Perm.eq_nil (h []).1

/-- Any conforming sort fixes singletons. -/
theorem StdSortOk.sort_singleton {s : List ItemData → List ItemData}
    (h : StdSortOk s) (a : ItemData) : s [a] = [a] :=
  List.Perm.eq_singleton (h [a]).1

/-- The engine depends on `sortImpl` only through its value on the job's
item list. -/
theorem suggest_congr (sortImpl1 sortImpl2 : List ItemData → List ItemData)
    (items_to_place_input : List ItemData)
    (containers_input : List ContainerData)
    (current_db_placements : List (String × List PlacementInfo))
    (h : sortImpl1 items_to_place_input = sortImpl2 items_to_place_input) :
    suggest_placements_cpp sortImpl1 items_to_place_input containers_input
        current_db_placements =
      suggest_placements_cpp sortImpl2 items_to_place_input containers_input
        current_db_placements := by
  unfold suggest_placements_cpp
  rw [h]

/-- Evaluation of the engine on §8 scenario 1. -/
theorem run_scn1 :
    suggest_placements_cpp stableSortByPriority [scn1_itemA] [scn1_contC1] [] =
      ⟨true, none, [⟨"A", "C1", ⟨⟨0, 7, 0⟩, ⟨2, 10, 1⟩⟩⟩], [], []⟩ := by
  with_unfolding_all rfl

/-- Scenario 4, container C1, base height 0: the width loop rejects every
candidate (each one overlaps the preloaded low-priority item L). -/
theorem scn4_wloop_h0 :
    spotWLoop scn4_contC1 [scn4_itemL] ⟨4, 4, 2⟩ (4/25) 27 0 0 = none := by
  unfold spotWLoop
  refine List.findSome?_eq_none_iff.mpr ?_
  intro i hi
  simp only
  have hsw : max 0 (min ((i : ℚ) * (4/25)) (scn4_contC1.width - 4)) = 0 := by
    rw [show scn4_contC1.width - (4:ℚ) = 0 from by norm_num [scn4_contC1]]
    rw [min_eq_right (by positivity), max_self]
  rw [hsw]
  with_unfolding_all rfl

/-- Scenario 4, container C1, base height 0: the depth loop finds nothing
(every start depth clamps to 0 and the width loop rejects). -/
theorem scn4_dloop_h0 :
    spotDLoop scn4_contC1 [scn4_itemL] ⟨4, 4, 2⟩ (4/25) (4/25) 27 27 true 0 =
      none := by
  unfold spotDLoop
  refine List.findSome?_eq_none_iff.mpr ?_
  intro i hi
  simp only [if_true]
  have hsd : max 0 (min ((i : ℚ) * (4/25)) (scn4_contC1.depth - 4)) = 0 := by
    rw [show scn4_contC1.depth - (4:ℚ) = 0 from by norm_num [scn4_contC1]]
    rw [min_eq_right (by positivity), max_self]
  rw [hsd]
  rw [if_neg (by norm_num [scn4_contC1, COORD_TOLERANCE])]
  exact scn4_wloop_h0

/-- Scenario 4, container C1, base height 1 (the top of L): the first
candidate is in bounds, overlap-free and stable, so it is taken. -/
theorem scn4_dloop_h1 :
    spotDLoop scn4_contC1 [scn4_itemL] ⟨4, 4, 2⟩ (4/25) (4/25) 27 27 true 1 =
      some (⟨⟨0, 0, 1⟩, ⟨4, 4, 3⟩⟩, ⟨4, 4, 2⟩) := by
  with_unfolding_all rfl

/-- The spot search of scenario 4 in container C1: H is stacked on top of
L at `(0, 0, 1)`–`(4, 4, 3)`. -/
theorem scn4_spot :
    find_spot_in_container scn4_itemH scn4_contC1 [scn4_itemL] true =
      some (⟨⟨0, 0, 1⟩, ⟨4, 4, 3⟩⟩, ⟨4, 4, 2⟩) := by
  simp only [find_spot_in_container]
  rw [show orientationsOf scn4_itemH =
    [⟨4, 4, 2⟩, ⟨4, 2, 4⟩, ⟨4, 4, 2⟩, ⟨4, 2, 4⟩, ⟨2, 4, 4⟩, ⟨2, 4, 4⟩] from by
      with_unfolding_all rfl]
  rw [show max (scn4_contC1.width / 25) ((1:ℚ) / 50) = 4/25 from by
    norm_num [scn4_contC1]]
  rw [show max (scn4_contC1.depth / 25) ((1:ℚ) / 50) = 4/25 from by
    norm_num [scn4_contC1]]
  rw [show (cppIntOfRat (scn4_contC1.width / (4/25)) + 2).toNat = 27 from by
    with_unfolding_all rfl]
  rw [show (cppIntOfRat (scn4_contC1.depth / (4/25)) + 2).toNat = 27 from by
    with_unfolding_all rfl]
  rw [show possible_base_heights [scn4_itemL] = [0, 1] from by
    with_unfolding_all rfl]
  have hw : scn4_contC1.width = 4 := rfl
  have hd : scn4_contC1.depth = 4 := rfl
  have hh : scn4_contC1.height = 4 := rfl
  norm_num [List.findSome?_cons, scn4_dloop_h0, scn4_dloop_h1, hw, hd, hh,
    COORD_TOLERANCE]


/-- The cons-step equation of `tryPreferredContainers`, zeta-expanded. -/
theorem tryPreferredContainers_cons (cm : StrMap ContainerData)
    (sim : StrMap (List PlacementInfo)) (it : ItemData) (hp : Bool)
    (z : String) (cid : String) (rest : List String) :
    tryPreferredContainers cm sim it hp z (cid :: rest) =
      (if ((StrMap.find? cid cm).getD default).zone = z then
        match find_spot_in_container it ((StrMap.find? cid cm).getD default)
            ((StrMap.find? cid sim).getD []) hp with
        | some (found_pos, _found_ori) => some (cid, found_pos)
        | none => tryPreferredContainers cm sim it hp z rest
      else tryPreferredContainers cm sim it hp z rest) := rfl

/-- Scenario 4: the preferred-zone walk places H in C1 at the stacked
spot. -/
theorem scn4_try :
    tryPreferredContainers (containersMapOf [scn4_contC1, scn4_contC2])
      (StrMap.ofList [("C1", [scn4_itemL])]) scn4_itemH true "Z1"
      ["C1", "C2"] = some ("C1", ⟨⟨0, 0, 1⟩, ⟨4, 4, 3⟩⟩) := by
  rw [tryPreferredContainers_cons]
  rw [show (StrMap.find? "C1"
      (containersMapOf [scn4_contC1, scn4_contC2])).getD default =
    scn4_contC1 from by with_unfolding_all rfl]
  rw [if_pos (show scn4_contC1.zone = "Z1" from rfl)]
  rw [show (StrMap.find? "C1"
      (StrMap.ofList [("C1", [scn4_itemL])])).getD [] =
    [scn4_itemL] from by with_unfolding_all rfl]
  rw [scn4_spot]

/-- The Phase-1 step on an unprocessed item with a preferred zone. -/
theorem phase1Step_pref (cm : StrMap ContainerData) (cids : List String)
    (st : Phase1State) (it : ItemData) (z : String)
    (hz : it.preferredZone = some z)
    (hnp : st.processed.contains it.itemId = false) :
    phase1Step cm cids st it =
      (match tryPreferredContainers cm st.sim it (decide (it.priority ≥ 75))
          z cids with
       | some (container_id, found_pos) =>
           commitSpot st it container_id found_pos
       | none => { st with pass2 := st.pass2 ++ [it] }) := by
  unfold phase1Step
  rw [hnp, hz]
  simp

/-- The single Phase-1 iteration of scenario 4, evaluated. -/
theorem scn4_phase1 :
    phase1Step (containersMapOf [scn4_contC1, scn4_contC2]) ["C1", "C2"]
      ⟨StrMap.ofList [("C1", [scn4_itemL])], [],
        finalSeedOf (StrMap.ofList [("C1", [scn4_itemL])]), []⟩ scn4_itemH =
    ⟨[("C1", [scn4_itemL, ⟨"H", "C1", ⟨⟨0, 0, 1⟩, ⟨4, 4, 3⟩⟩, 90⟩])],
     ["H"],
     [("H", ⟨"H", "C1", ⟨⟨0, 0, 1⟩, ⟨4, 4, 3⟩⟩⟩),
      ("L", ⟨"L", "C1", ⟨⟨0, 0, 0⟩, ⟨4, 4, 1⟩⟩⟩)],
     []⟩ := by
  rw [phase1Step_pref _ _ _ _ "Z1" (show scn4_itemH.preferredZone = some "Z1"
    from rfl) (show (([] : List String).contains scn4_itemH.itemId) = false
    from rfl)]
  rw [show (decide (scn4_itemH.priority ≥ 75)) = true from by
    with_unfolding_all rfl]
  rw [show (⟨StrMap.ofList [("C1", [scn4_itemL])], [],
      finalSeedOf (StrMap.ofList [("C1", [scn4_itemL])]), []⟩ :
        Phase1State).sim = StrMap.ofList [("C1", [scn4_itemL])] from rfl]
  rw [scn4_try]
  with_unfolding_all rfl

/-- Evaluation of the engine on §8 scenario 4 (the rearrangement scenario). -/
theorem run_scn4 :
    suggest_placements_cpp stableSortByPriority [scn4_itemH]
        [scn4_contC1, scn4_contC2] [("C1", [scn4_itemL])] =
      ⟨true, none,
       [⟨"H", "C1", ⟨⟨0, 0, 1⟩, ⟨4, 4, 3⟩⟩⟩,
        ⟨"L", "C1", ⟨⟨0, 0, 0⟩, ⟨4, 4, 1⟩⟩⟩],
       [], []⟩ := by
  simp only [suggest_placements_cpp]
  rw [show stableSortByPriority [scn4_itemH] = [scn4_itemH] from by
    with_unfolding_all rfl]
  rw [show List.map (fun c => c.containerId) [scn4_contC1, scn4_contC2] =
    ["C1", "C2"] from by with_unfolding_all rfl]
  rw [List.foldl_cons, List.foldl_nil]
  rw [scn4_phase1]
  with_unfolding_all rfl

/-- Evaluation of the engine on the invalid input with a dangling container
id: it is passed through, not rejected. -/
theorem run_inv5 :
    suggest_placements_cpp stableSortByPriority [] [inv5_contC1]
        [("CX", [inv5_ghost])] =
      ⟨true, none, [⟨"P1", "CX", ⟨⟨0, 0, 0⟩, ⟨1, 1, 1⟩⟩⟩], [], []⟩ := by
  with_unfolding_all rfl

/-- Evaluation of the engine on the floating-placement input. -/
theorem run_float :
    suggest_placements_cpp stableSortByPriority [] [float_cont]
        [("C", [float_placement])] =
      ⟨true, none, [⟨"F", "C", ⟨⟨0, 0, 5⟩, ⟨1, 1, 6⟩⟩⟩], [], []⟩ := by
  with_unfolding_all rfl

/-- A fold preserves any invariant its step preserves. -/
theorem foldlPreserves {α σ : Type _} (f : σ → α → σ) (P : σ → Prop)
    (hstep : ∀ s a, P s → P (f s a)) :
    ∀ (l : List α) (s : σ), P s → P (l.foldl f s) := by
  intro l
  induction l with
  | nil => exact fun s h => h
  | cons a t ih => exact fun s h => ih _ (hstep s a h)

/-- Each Phase-3 iteration preserves `OutFlagsOk`. -/
theorem phase3Step_flags (containers_map : StrMap ContainerData)
    (container_ids : List String) (st : Phase3State) (item_req : ItemData)
    (h : OutFlagsOk st) :
    OutFlagsOk (phase3Step containers_map container_ids st item_req) := by
  unfold phase3Step
  split
  · exact h
  · rcases htry : tryAnyContainer containers_map st.sim item_req
        (decide (item_req.priority ≥ 75)) container_ids with _ | ⟨cid, pos⟩
    · simp only [htry]
      refine ⟨?_, ?_⟩
      · simp
      · intro hcontra
        simp at hcontra
    · simp only [htry]
      exact h

/-- The assembled output inherits the flags invariant. -/
theorem assembleOutput_flags (st3 : Phase3State) (h : OutFlagsOk st3) :
    (assembleOutput st3).success = (assembleOutput st3).failedItemIds.isEmpty ∧
    (assembleOutput st3).error =
      (if (assembleOutput st3).failedItemIds = [] then none
       else some ("Placement incomplete. Failed items: " ++
         joinFailedIds (assembleOutput st3).failedItemIds)) := by
  obtain ⟨hs, he⟩ := h
  unfold assembleOutput
  refine ⟨hs, ?_⟩
  by_cases hfail : st3.failed = []
  · simp [hfail, he hfail]
  · simp [hfail]

/-- Evaluation of the engine with the tie-swapped conforming sort on the
two-equal-priority-items input. -/
theorem run_tie_swap :
    suggest_placements_cpp tieSwapSortByPriority [tie_itemA, tie_itemB]
        [tie_cont] [] =
      ⟨true, none,
       [⟨"A", "C", ⟨⟨1, 4, 0⟩, ⟨2, 5, 1⟩⟩⟩,
        ⟨"B", "C", ⟨⟨0, 4, 0⟩, ⟨1, 5, 1⟩⟩⟩],
       [], []⟩ := by
  with_unfolding_all rfl

/-- Evaluation of the engine with the stable conforming sort on the same
input. -/
theorem run_tie_stable :
    suggest_placements_cpp stableSortByPriority [tie_itemA, tie_itemB]
        [tie_cont] [] =
      ⟨true, none,
       [⟨"A", "C", ⟨⟨0, 4, 0⟩, ⟨1, 5, 1⟩⟩⟩,
        ⟨"B", "C", ⟨⟨1, 4, 0⟩, ⟨2, 5, 1⟩⟩⟩],
       [], []⟩ := by
  with_unfolding_all rfl

/-- Swapping two adjacent equal-priority items preserves sortedness. -/
theorem sorted_swap_of_eq_priority {a b : ItemData} {t : List ItemData}
    (hab : a.priority = b.priority) (h : (a :: b :: t).Sorted prioGE) :
    (b :: a :: t).Sorted prioGE := by
  simp only [List.sorted_cons, List.mem_cons] at h ⊢
  obtain ⟨ha, hb, ht⟩ := h
  refine ⟨?_, ?_, ht⟩
  · rintro x (rfl | hx)
    · exact le_of_eq hab
    · exact le_trans (ha x (Or.inr hx)) (le_of_eq hab)
  · exact fun x hx => ha x (Or.inr hx)

/-- The tie-swapping sort is also a conforming `std::sort` behaviour. -/
theorem stdSortOk_tieSwap : StdSortOk tieSwapSortByPriority := by
  intro l
  have hperm := (stdSortOk_stable l).1
  have hsorted := (stdSortOk_stable l).2
  rcases hl : stableSortByPriority l with _ | ⟨a, rest⟩
  · rw [hl] at hperm
    simp only [tieSwapSortByPriority, hl]
    exact ⟨hperm, by simp⟩
  · rcases rest with _ | ⟨b, t⟩
    · rw [hl] at hperm hsorted
      simp only [tieSwapSortByPriority, hl]
      exact ⟨hperm, hsorted⟩
    · rw [hl] at hperm hsorted
      simp only [tieSwapSortByPriority, hl]
      by_cases hab : a.priority = b.priority
      · rw [if_pos hab]
        exact ⟨(List.Perm.swap a b t).trans hperm,
          sorted_swap_of_eq_priority hab hsorted⟩
      · rw [if_neg hab]
        exact ⟨hperm, hsorted⟩

/-! ### `StrMap` lemmas -/

/-- `find?` after `insert`. -/
theorem StrMap.find?_insert {α : Type} (m : StrMap α) (k k' : String) (v : α) :
    StrMap.find? k' (StrMap.insert k v m) =
      if k' = k then some v else StrMap.find? k' m := by
  induction m with
  | nil =>
    by_cases h : k' = k <;> simp [StrMap.insert, StrMap.find?, h]
  | cons kv rest ih =>
    obtain ⟨k0, v0⟩ := kv
    unfold StrMap.insert
    by_cases h1 : k < k0
    · rw [if_pos h1]
      by_cases h : k' = k <;> simp [StrMap.find?, h]
    · rw [if_neg h1]
      by_cases h2 : k = k0
      · rw [if_pos h2]
        subst h2
        by_cases h : k' = k <;> simp [StrMap.find?, h]
      · rw [if_neg h2]
        by_cases h : k' = k0
        · have hne : k' ≠ k := fun hc => h2 (hc ▸ h)
          have hne' : k0 ≠ k := fun hc => h2 hc.symm
          simp [StrMap.find?, h, hne, hne']
        · simp [StrMap.find?, h, ih]

/-- A successful lookup is a membership (in the entry list). -/
theorem StrMap.find?_some_mem {α : Type} {m : StrMap α} {k : String} {v : α}
    (h : StrMap.find? k m = some v) : (k, v) ∈ StrMap.toList m := by
  induction m with
  | nil => simp [StrMap.find?] at h
  | cons kv rest ih =>
    obtain ⟨k0, v0⟩ := kv
    unfold StrMap.find? at h
    by_cases hk : k = k0
    · rw [if_pos hk] at h
      subst hk
      obtain rfl := Option.some_inj.mp h
      exact List.mem_cons_self _ _
    · rw [if_neg hk] at h
      exact List.mem_cons_of_mem _ (ih h)

/-- Membership after `insert`: the new pair or an old one. -/
theorem StrMap.mem_insert_elim {α : Type} {m : StrMap α} {k : String} {v : α}
    {kv : String × α} (h : kv ∈ StrMap.toList (StrMap.insert k v m)) :
    kv = (k, v) ∨ kv ∈ StrMap.toList m := by
  induction m with
  | nil => simpa [StrMap.insert, StrMap.toList] using h
  | cons kv0 rest ih =>
    obtain ⟨k0, v0⟩ := kv0
    unfold StrMap.insert at h
    by_cases h1 : k < k0
    · rw [if_pos h1] at h
      rcases List.mem_cons.mp h with h | h
      · exact Or.inl h
      · exact Or.inr h
    · rw [if_neg h1] at h
      by_cases h2 : k = k0
      · rw [if_pos h2] at h
        rcases List.mem_cons.mp h with h | h
        · exact Or.inl h
        · exact Or.inr (List.mem_cons_of_mem _ h)
      · rw [if_neg h2] at h
        rcases List.mem_cons.mp h with h | h
        · exact Or.inr (h ▸ List.mem_cons_self _ _)
        · rcases ih h with h' | h'
          · exact Or.inl h'
          · exact Or.inr (List.mem_cons_of_mem _ h')

/-- `hasKey` is preserved by `insert`. -/
theorem StrMap.hasKey_insert {α : Type} {m : StrMap α} {k' : String}
    (k : String) (v : α) (h : StrMap.hasKey m k') :
    StrMap.hasKey (StrMap.insert k v m) k' := by
  obtain ⟨v', hv'⟩ := h
  unfold StrMap.hasKey
  rw [StrMap.find?_insert]
  by_cases hk : k' = k
  · exact ⟨v, by rw [if_pos hk]⟩
  · exact ⟨v', by rw [if_neg hk]; exact hv'⟩

/-- The inserted key is present. -/
theorem StrMap.hasKey_insert_self {α : Type} (m : StrMap α) (k : String)
    (v : α) : StrMap.hasKey (StrMap.insert k v m) k :=
  ⟨v, by rw [StrMap.find?_insert, if_pos rfl]⟩

/-- `insert` of a matching pair preserves `WellKeyed`. -/
theorem WellKeyed.insert {m : StrMap PlacementResult} (h : WellKeyed m)
    (k : String) (v : PlacementResult) (hv : v.itemId = k) :
    WellKeyed (StrMap.insert k v m) := by
  intro kv hkv
  rcases StrMap.mem_insert_elim hkv with h' | h'
  · rw [h']; exact hv
  · exact h kv h'

/-- The Phase-0 seed of `final_placements_map` is well-keyed. -/
theorem finalSeedOf_wellKeyed (db_map : StrMap (List PlacementInfo)) :
    WellKeyed (finalSeedOf db_map) := by
  unfold finalSeedOf
  refine foldlPreserves _ WellKeyed ?_ _ _ ?_
  · intro m pr hm
    refine foldlPreserves _ WellKeyed ?_ _ _ hm
    intro m' pi hm'
    exact hm'.insert _ _ rfl
  · intro kv hkv
    simp [StrMap.empty] at hkv

/-! ### Phase-loop invariants (for the completeness claim) -/

/-- Phase-1 steps only grow `processed`. -/
theorem phase1Step_processed_mono (cm : StrMap ContainerData)
    (cids : List String) (st : Phase1State) (it : ItemData) {id : String}
    (h : id ∈ st.processed) :
    id ∈ (phase1Step cm cids st it).processed := by
  simp only [phase1Step]
  split
  · exact h
  · split
    · split
      · simp only [commitSpot]
        exact List.mem_cons_of_mem _ h
      · exact h
    · exact h

/-- Phase-1 steps only grow `pass2`. -/
theorem phase1Step_pass2_mono (cm : StrMap ContainerData)
    (cids : List String) (st : Phase1State) (it : ItemData) {x : ItemData}
    (h : x ∈ st.pass2) :
    x ∈ (phase1Step cm cids st it).pass2 := by
  simp only [phase1Step]
  split
  · exact h
  · split
    · split
      · simp only [commitSpot]
        exact h
      · exact List.mem_append_left _ h
    · exact List.mem_append_left _ h

/-- Phase-1 steps only grow the key set of `final_placements_map`. -/
theorem phase1Step_hasKey_mono (cm : StrMap ContainerData)
    (cids : List String) (st : Phase1State) (it : ItemData) {id : String}
    (h : StrMap.hasKey st.finalMap id) :
    StrMap.hasKey (phase1Step cm cids st it).finalMap id := by
  simp only [phase1Step]
  split
  · exact h
  · split
    · split
      · simp only [commitSpot]
        exact StrMap.hasKey_insert _ _ h
      · exact h
    · exact h

/-- After a Phase-1 step, the stepped item is processed or queued. -/
theorem phase1Step_covers (cm : StrMap ContainerData) (cids : List String)
    (st : Phase1State) (it : ItemData) :
    it.itemId ∈ (phase1Step cm cids st it).processed ∨
      it ∈ (phase1Step cm cids st it).pass2 := by
  simp only [phase1Step]
  split
  · exact Or.inl (List.elem_iff.mp (by assumption))
  · split
    · split
      · simp only [commitSpot]
        exact Or.inl (List.mem_cons_self _ _)
      · exact Or.inr (List.mem_append_right _ (List.mem_singleton.mpr rfl))
    · exact Or.inr (List.mem_append_right _ (List.mem_singleton.mpr rfl))

/-- Phase-1 steps preserve `ProcessedHaveKeys`. -/
theorem phase1Step_keys (cm : StrMap ContainerData) (cids : List String)
    (st : Phase1State) (it : ItemData) (h : ProcessedHaveKeys st) :
    ProcessedHaveKeys (phase1Step cm cids st it) := by
  simp only [ProcessedHaveKeys, phase1Step]
  split
  · exact h
  · split
    · split
      · simp only [commitSpot]
        intro id hid
        rcases List.mem_cons.mp hid with rfl | hid
        · exact StrMap.hasKey_insert_self _ _ _
        · exact StrMap.hasKey_insert _ _ (h id hid)
      · exact h
    · exact h

/-- Phase-1 steps preserve well-keyedness of `final_placements_map`. -/
theorem phase1Step_wellKeyed (cm : StrMap ContainerData) (cids : List String)
    (st : Phase1State) (it : ItemData) (h : WellKeyed st.finalMap) :
    WellKeyed (phase1Step cm cids st it).finalMap := by
  simp only [phase1Step]
  split
  · exact h
  · split
    · split
      · simp only [commitSpot]
        exact h.insert _ _ rfl
      · exact h
    · exact h

/-- Phase-3 steps only grow `processed`. -/
theorem phase3Step_processed_mono (cm : StrMap ContainerData)
    (cids : List String) (st : Phase3State) (it : ItemData) {id : String}
    (h : id ∈ st.processed) :
    id ∈ (phase3Step cm cids st it).processed := by
  simp only [phase3Step]
  split
  · exact h
  · split
    · simp only [commitSpot3]
      exact List.mem_cons_of_mem _ h
    · exact List.mem_cons_of_mem _ h

/-- Phase-3 steps only grow the key set of `final_placements_map`. -/
theorem phase3Step_hasKey_mono (cm : StrMap ContainerData)
    (cids : List String) (st : Phase3State) (it : ItemData) {id : String}
    (h : StrMap.hasKey st.finalMap id) :
    StrMap.hasKey (phase3Step cm cids st it).finalMap id := by
  simp only [phase3Step]
  split
  · exact h
  · split
    · simp only [commitSpot3]
      exact StrMap.hasKey_insert _ _ h
    · exact h

/-- After a Phase-3 step, the stepped item is processed. -/
theorem phase3Step_covers (cm : StrMap ContainerData) (cids : List String)
    (st : Phase3State) (it : ItemData) :
    it.itemId ∈ (phase3Step cm cids st it).processed := by
  simp only [phase3Step]
  split
  · exact List.elem_iff.mp (by assumption)
  · split
    · simp only [commitSpot3]
      exact List.mem_cons_self _ _
    · exact List.mem_cons_self _ _

/-- Phase-3 steps preserve `ProcessedKeyOrFailed`. -/
theorem phase3Step_keyOrFailed (cm : StrMap ContainerData) (cids : List String)
    (st : Phase3State) (it : ItemData) (h : ProcessedKeyOrFailed st) :
    ProcessedKeyOrFailed (phase3Step cm cids st it) := by
  simp only [ProcessedKeyOrFailed, phase3Step]
  split
  · exact h
  · split
    · simp only [commitSpot3]
      intro id hid
      rcases List.mem_cons.mp hid with rfl | hid
      · exact Or.inl (StrMap.hasKey_insert_self _ _ _)
      · rcases h id hid with h' | h'
        · exact Or.inl (StrMap.hasKey_insert _ _ h')
        · exact Or.inr h'
    · intro id hid
      rcases List.mem_cons.mp hid with rfl | hid
      · exact Or.inr (List.mem_append_right _ (List.mem_singleton.mpr rfl))
      · rcases h id hid with h' | h'
        · exact Or.inl h'
        · exact Or.inr (List.mem_append_left _ h')

/-- Phase-3 steps preserve well-keyedness of `final_placements_map`. -/
theorem phase3Step_wellKeyed (cm : StrMap ContainerData) (cids : List String)
    (st : Phase3State) (it : ItemData) (h : WellKeyed st.finalMap) :
    WellKeyed (phase3Step cm cids st it).finalMap := by
  simp only [phase3Step]
  split
  · exact h
  · split
    · simp only [commitSpot3]
      exact h.insert _ _ rfl
    · exact h

/-- Every item of the Phase-1 worklist ends the phase processed or queued. -/
theorem phase1_fold_covers (cm : StrMap ContainerData) (cids : List String) :
    ∀ (l : List ItemData) (st : Phase1State), ∀ it ∈ l,
      it.itemId ∈ (l.foldl (phase1Step cm cids) st).processed ∨
        it ∈ (l.foldl (phase1Step cm cids) st).pass2 := by
  intro l
  induction l with
  | nil => intro st it hit; simp at hit
  | cons a t ih =>
    intro st it hit
    rcases List.mem_cons.mp hit with rfl | hit
    · rcases phase1Step_covers cm cids st it with h | h
      · exact Or.inl (foldlPreserves _
          (fun s => it.itemId ∈ s.processed)
          (fun s b => phase1Step_processed_mono cm cids s b) t _ h)
      · exact Or.inr (foldlPreserves _ (fun s => it ∈ s.pass2)
          (fun s b => phase1Step_pass2_mono cm cids s b) t _ h)
    · exact ih _ it hit

/-- Every item of the Phase-3 worklist ends the phase processed. -/
theorem phase3_fold_covers (cm : StrMap ContainerData) (cids : List String) :
    ∀ (l : List ItemData) (st : Phase3State), ∀ it ∈ l,
      it.itemId ∈ (l.foldl (phase3Step cm cids) st).processed := by
  intro l
  induction l with
  | nil => intro st it hit; simp at hit
  | cons a t ih =>
    intro st it hit
    rcases List.mem_cons.mp hit with rfl | hit
    · exact foldlPreserves _ (fun s => it.itemId ∈ s.processed)
        (fun s b => phase3Step_processed_mono cm cids s b) t _
        (phase3Step_covers cm cids st it)
    · exact ih _ it hit

/-- Membership in the assembled `placements`. -/
theorem mem_assemble_placements (st3 : Phase3State) (p : PlacementResult) :
    p ∈ (assembleOutput st3).placements ↔
      ∃ kv, kv ∈ StrMap.toList st3.finalMap ∧
        st3.failed.contains kv.1 = false ∧ kv.2 = p := by
  simp only [assembleOutput, List.mem_map, List.mem_filter]
  constructor
  · rintro ⟨kv, ⟨hmem, hc⟩, rfl⟩
    exact ⟨kv, hmem, by simpa using hc, rfl⟩
  · rintro ⟨kv, hmem, hc, rfl⟩
    exact ⟨kv, ⟨hmem, by simpa using hc⟩, rfl⟩

/-- A placement in the assembled output never carries a failed id. -/
theorem assemble_not_failed {st3 : Phase3State} (hW : WellKeyed st3.finalMap)
    {p : PlacementResult} (hp : p ∈ (assembleOutput st3).placements) :
    p.itemId ∉ st3.failed := by
  rcases (mem_assemble_placements st3 p).mp hp with ⟨kv, hmem, hc, rfl⟩
  rw [hW kv hmem]
  intro hmem'
  have hct : st3.failed.contains kv.1 = true := List.elem_iff.mpr hmem'
  rw [hct] at hc
  simp at hc

/-- A non-failed bound id yields a placement in the assembled output. -/
theorem assemble_of_hasKey {st3 : Phase3State} (hW : WellKeyed st3.finalMap)
    {id : String} (hkey : StrMap.hasKey st3.finalMap id)
    (hnf : id ∉ st3.failed) :
    ∃ p ∈ (assembleOutput st3).placements, p.itemId = id := by
  obtain ⟨v, hv⟩ := hkey
  have hmem := StrMap.find?_some_mem hv
  have hc : st3.failed.contains id = false := by
    rcases hb : st3.failed.contains id with _ | _
    · rfl
    · exact absurd (List.elem_iff.mp hb) hnf
  exact ⟨v, (mem_assemble_placements st3 v).mpr ⟨(id, v), hmem, hc, rfl⟩,
    hW (id, v) hmem⟩


/-- Core of the completeness claim: after both placement phases, an item of
the (sorted) worklist has a non-failed binding in the output iff its id is
not among the failed ids. -/
theorem completeness_core (cm : StrMap ContainerData) (cids : List String)
    (sorted : List ItemData) (db : StrMap (List PlacementInfo))
    (seed : StrMap PlacementResult) (hseed : WellKeyed seed)
    (st1 : Phase1State)
    (hst1 : st1 = sorted.foldl (phase1Step cm cids) ⟨db, [], seed, []⟩)
    (st3 : Phase3State)
    (hst3 : st3 = st1.pass2.foldl (phase3Step cm cids)
      ⟨st1.sim, st1.processed, st1.finalMap, [], true, none⟩)
    (it : ItemData) (hit : it ∈ sorted) :
    (∃ p ∈ (assembleOutput st3).placements, p.itemId = it.itemId) ↔
      it.itemId ∉ (assembleOutput st3).failedItemIds := by
  have hW1 : WellKeyed st1.finalMap := by
    rw [hst1]
    exact foldlPreserves _ (fun s => WellKeyed s.finalMap)
      (fun s a => phase1Step_wellKeyed cm cids s a) sorted
      ⟨db, [], seed, []⟩ hseed
  have hQ1 : ProcessedHaveKeys st1 := by
    rw [hst1]
    exact foldlPreserves _ ProcessedHaveKeys
      (fun s a => phase1Step_keys cm cids s a) sorted _
      (by intro id hid; simp at hid)
  have hW3 : WellKeyed st3.finalMap := by
    rw [hst3]
    exact foldlPreserves _ (fun s => WellKeyed s.finalMap)
      (fun s a => phase3Step_wellKeyed cm cids s a) _
      ⟨st1.sim, st1.processed, st1.finalMap, [], true, none⟩ hW1
  have hQ3 : ProcessedKeyOrFailed st3 := by
    rw [hst3]
    refine foldlPreserves _ ProcessedKeyOrFailed
      (fun s a => phase3Step_keyOrFailed cm cids s a) _ _ ?_
    intro id hid
    exact Or.inl (hQ1 id hid)
  have hcov := phase1_fold_covers cm cids sorted ⟨db, [], seed, []⟩ it hit
  rw [← hst1] at hcov
  have hproc3 : it.itemId ∈ st3.processed := by
    rcases hcov with h | h
    · rw [hst3]
      exact foldlPreserves _ (fun s => it.itemId ∈ s.processed)
        (fun s a => phase3Step_processed_mono cm cids s a) _
        ⟨st1.sim, st1.processed, st1.finalMap, [], true, none⟩ h
    · rw [hst3]
      exact phase3_fold_covers cm cids _ _ it h
  have hfail_eq : (assembleOutput st3).failedItemIds = st3.failed := rfl
  rw [hfail_eq]
  constructor
  · rintro ⟨p, hp, heq⟩
    rw [← heq]
    exact assemble_not_failed hW3 hp
  · intro hnf
    rcases hQ3 _ hproc3 with hkey | hfailed
    · exact assemble_of_hasKey hW3 hkey hnf
    · exact absurd hfailed hnf

/-! ### Permutation lemmas for the idempotence claim -/

/-- Inserting a fresh key is, up to permutation, a `cons`. -/
theorem StrMap.insert_perm_fresh {α : Type} (k : String) (v : α)
    (m : StrMap α) (h : k ∉ m.map Prod.fst) :
    (StrMap.insert k v m).Perm ((k, v) :: m) := by
  induction m with
  | nil => simp [StrMap.insert]
  | cons kv0 rest ih =>
    obtain ⟨k0, v0⟩ := kv0
    simp only [List.map_cons, List.mem_cons, not_or] at h
    obtain ⟨hk0, hrest⟩ := h
    unfold StrMap.insert
    by_cases h1 : k < k0
    · rw [if_pos h1]
    · rw [if_neg h1, if_neg hk0]
      exact ((ih hrest).cons (k0, v0)).trans (List.Perm.swap (k, v) (k0, v0) rest)

/-- Folding fresh-key inserts over a worklist appends its bindings, up to
permutation. -/
theorem foldl_insert_perm {α β : Type} (key : β → String) (val : β → α) :
    ∀ (l : List β) (m : StrMap α),
      (l.map key).Nodup →
      (∀ b ∈ l, key b ∉ m.map Prod.fst) →
      (l.foldl (fun m b => StrMap.insert (key b) (val b) m) m).Perm
        (m ++ l.map (fun b => (key b, val b))) := by
  intro l
  induction l with
  | nil => intro m _ _; simp
  | cons b t ih =>
    intro m hnd hfresh
    simp only [List.map_cons, List.nodup_cons] at hnd
    obtain ⟨hb, hndt⟩ := hnd
    have hfb : key b ∉ m.map Prod.fst := hfresh b (List.mem_cons_self _ _)
    have hperm1 : (StrMap.insert (key b) (val b) m).Perm ((key b, val b) :: m) :=
      StrMap.insert_perm_fresh _ _ _ hfb
    have hkeys1 : ((StrMap.insert (key b) (val b) m).map Prod.fst).Perm
        (key b :: m.map Prod.fst) := by
      have hmap := hperm1.map Prod.fst
      simpa using hmap
    have hfresh' : ∀ c ∈ t, key c ∉ (StrMap.insert (key b) (val b) m).map Prod.fst := by
      intro c hc hmem
      rcases List.mem_cons.mp (hkeys1.mem_iff.mp hmem) with h' | h'
      · exact hb (h' ▸ List.mem_map_of_mem key hc)
      · exact hfresh c (List.mem_cons_of_mem _ hc) h'
    have hih := ih (StrMap.insert (key b) (val b) m) hndt hfresh'
    simp only [List.foldl_cons, List.map_cons]
    exact hih.trans ((hperm1.append_right _).trans List.perm_middle.symm)

/-- The Phase-0 seeding of `final_placements_map`, as a permutation of the
bindings it inserts, when all placed ids are distinct. -/
theorem seed_fold_perm :
    ∀ (entries : List (String × List PlacementInfo))
      (m : StrMap PlacementResult),
      (entries.flatMap (fun pr => pr.2.map (·.itemId))).Nodup →
      (∀ k ∈ entries.flatMap (fun pr => pr.2.map (·.itemId)),
        k ∉ m.map Prod.fst) →
      (entries.foldl
        (fun m pr =>
          pr.2.foldl
            (fun m placement_info =>
              StrMap.insert placement_info.itemId
                ⟨placement_info.itemId, pr.1, placement_info.position⟩ m)
            m)
        m).Perm
        (m ++ entries.flatMap (fun pr => pr.2.map (fun pi =>
          (pi.itemId, (⟨pi.itemId, pr.1, pi.position⟩ : PlacementResult))))) := by
  intro entries
  induction entries with
  | nil => intro m _ _; simp
  | cons pr rest ih =>
    intro m hnd hfresh
    rw [List.flatMap_cons] at hnd
    rw [List.nodup_append] at hnd
    obtain ⟨hnd1, hndr, hdisj⟩ := hnd
    have hfresh1 : ∀ pi ∈ pr.2, pi.itemId ∉ m.map Prod.fst := fun pi hpi =>
      hfresh pi.itemId (by
        rw [List.flatMap_cons]
        exact List.mem_append_left _ (List.mem_map_of_mem _ hpi))
    have hinner := foldl_insert_perm (fun pi : PlacementInfo => pi.itemId)
      (fun pi => (⟨pi.itemId, pr.1, pi.position⟩ : PlacementResult))
      pr.2 m hnd1 hfresh1
    have hkeys1 : ((pr.2.foldl
        (fun m pi => StrMap.insert pi.itemId
          ⟨pi.itemId, pr.1, pi.position⟩ m) m).map Prod.fst).Perm
        (m.map Prod.fst ++ pr.2.map (·.itemId)) := by
      have hmap := hinner.map Prod.fst
      simpa [List.map_map, Function.comp] using hmap
    have hfreshr : ∀ k ∈ rest.flatMap (fun pr => pr.2.map (·.itemId)),
        k ∉ (pr.2.foldl
          (fun m pi => StrMap.insert pi.itemId
            ⟨pi.itemId, pr.1, pi.position⟩ m) m).map Prod.fst := by
      intro k hk hmem
      rcases List.mem_append.mp (hkeys1.mem_iff.mp hmem) with h' | h'
      · exact hfresh k (by rw [List.flatMap_cons]; exact List.mem_append_right _ hk) h'
      · exact hdisj h' hk
    have hih := ih _ hndr hfreshr
    simp only [List.foldl_cons]
    refine hih.trans ?_
    rw [List.flatMap_cons, ← List.append_assoc]
    exact hinner.append_right _

/-! ### Geometry and spot-finder soundness (for the invariants claim) -/

/-- ε is positive. -/
theorem tol_pos : 0 < COORD_TOLERANCE := by norm_num [COORD_TOLERANCE]

/-- A fold over a list preserves any invariant its step preserves on the
list's members. -/
theorem foldlPreservesMem {α σ : Type _} (f : σ → α → σ) (P : σ → Prop) :
    ∀ (l : List α), (∀ s a, a ∈ l → P s → P (f s a)) →
      ∀ s, P s → P (l.foldl f s) := by
  intro l
  induction l with
  | nil => exact fun _ s h => h
  | cons a t ih =>
    intro hstep s h
    exact ih (fun s b hb => hstep s b (List.mem_cons_of_mem _ hb)) _
      (hstep s a (List.mem_cons_self _ _) h)

/-- On-the-floor candidates are stable. -/
theorem is_stable_floor (pos : Position) (container : ContainerData)
    (placed : List PlacementInfo)
    (h : |pos.startCoordinates.height| < COORD_TOLERANCE) :
    is_stable pos container placed = true := by
  simp [is_stable, h]

/-- A supporter below with matching top height and horizontally overlapping
projection makes the candidate stable. -/
theorem is_stable_intro (pos : Position) (container : ContainerData)
    (placed : List PlacementInfo) (q : PlacementInfo) (hq : q ∈ placed)
    (hh : |q.position.endCoordinates.height - pos.startCoordinates.height| <
      COORD_TOLERANCE)
    (hw : overlapW pos q.position) (hd : overlapD pos q.position) :
    is_stable pos container placed = true := by
  unfold is_stable
  split
  · rfl
  · rw [List.any_eq_true]
    refine ⟨q, hq, ?_⟩
    unfold overlapW axis_overlap at hw
    unfold overlapD axis_overlap at hd
    rw [not_or] at hw hd
    simp [hh, hw.1, hw.2, hd.1, hd.2]

/-- What a successful stability check gives. -/
theorem is_stable_elim {pos : Position} {container : ContainerData}
    {placed : List PlacementInfo} (h : is_stable pos container placed = true) :
    |pos.startCoordinates.height| < COORD_TOLERANCE ∨
    ∃ q ∈ placed,
      |q.position.endCoordinates.height - pos.startCoordinates.height| <
        COORD_TOLERANCE ∧
      overlapW pos q.position ∧ overlapD pos q.position := by
  unfold is_stable at h
  split at h
  · exact Or.inl (by assumption)
  · right
    rw [List.any_eq_true] at h
    obtain ⟨q, hq, hcond⟩ := h
    simp only [Bool.and_eq_true, Bool.not_eq_true', Bool.or_eq_false_iff,
      decide_eq_true_eq, decide_eq_false_iff_not] at hcond
    obtain ⟨⟨h1, hw1, hw2⟩, hd1, hd2⟩ := hcond
    exact ⟨q, hq, h1,
      by unfold overlapW axis_overlap; rw [not_or]; exact ⟨hw1, hw2⟩,
      by unfold overlapD axis_overlap; rw [not_or]; exact ⟨hd1, hd2⟩⟩

/-- `boxes_overlap` is symmetric. -/
theorem boxes_overlap_comm (p q : Position) :
    boxes_overlap p q = boxes_overlap q p := by
  simp only [boxes_overlap]
  rw [Bool.eq_iff_iff]
  simp only [Bool.not_eq_true', Bool.or_eq_false_iff, decide_eq_false_iff_not]
  tauto

/-- Members of `insertSorted`. -/
theorem mem_insertSorted : ∀ {l : List ℚ} {x y : ℚ},
    y ∈ insertSorted x l → y = x ∨ y ∈ l := by
  intro l
  induction l with
  | nil => intro x y h; simpa [insertSorted] using h
  | cons z t ih =>
    intro x y h
    unfold insertSorted at h
    split at h
    · rcases List.mem_cons.mp h with rfl | h'
      · exact Or.inl rfl
      · exact Or.inr h'
    · rcases List.mem_cons.mp h with rfl | h'
      · exact Or.inr (List.mem_cons_self _ _)
      · rcases ih h' with h'' | h''
        · exact Or.inl h''
        · exact Or.inr (List.mem_cons_of_mem _ h'')

/-- Every candidate base height is the floor or an existing top height. -/
theorem possible_base_heights_mem (placed : List PlacementInfo) :
    ∀ h0 ∈ possible_base_heights placed,
      h0 = 0 ∨ ∃ q ∈ placed, h0 = q.position.endCoordinates.height := by
  unfold possible_base_heights
  refine foldlPreservesMem _
    (fun hs => ∀ h0 ∈ hs,
      h0 = 0 ∨ ∃ q ∈ placed, h0 = q.position.endCoordinates.height)
    placed ?_ [0] ?_
  · intro s p hp hP h0 hh0
    split at hh0
    · exact hP h0 hh0
    · rcases mem_insertSorted hh0 with rfl | h'
      · exact Or.inr ⟨p, hp, rfl⟩
      · exact hP h0 h'
  · intro h0 hh0
    rw [List.mem_singleton] at hh0
    exact Or.inl hh0

/-- Extraction from a successful `findSome?`. -/
theorem findSome?_some {α β : Type _} {f : α → Option β} :
    ∀ {l : List α} {b : β}, l.findSome? f = some b → ∃ a ∈ l, f a = some b := by
  intro l
  induction l with
  | nil => intro b h; simp [List.findSome?_nil] at h
  | cons x t ih =>
    intro b h
    rcases hfx : f x with _ | b'
    · rw [List.findSome?_cons, hfx] at h
      obtain ⟨a, ha, hfa⟩ := ih h
      exact ⟨a, List.mem_cons_of_mem _ ha, hfa⟩
    · rw [List.findSome?_cons, hfx] at h
      exact ⟨x, List.mem_cons_self _ _, by rw [hfx]; exact h⟩

/-- All six orientations of a positive-dimension item are positive. -/
theorem orientations_pos {item_req : ItemData}
    (hw : 0 < item_req.width) (hd : 0 < item_req.depth)
    (hh : 0 < item_req.height) :
    ∀ ori ∈ orientationsOf item_req, 0 < ori.w ∧ 0 < ori.d ∧ 0 < ori.h := by
  intro ori hori
  simp only [orientationsOf, List.mem_cons, List.mem_singleton,
    List.not_mem_nil, or_false] at hori
  rcases hori with rfl | rfl | rfl | rfl | rfl | rfl <;>
    refine ⟨?_, ?_, ?_⟩ <;> assumption

/-- Erasing the appended last element gives back the list. -/
theorem eraseIdx_concat_self {α : Type _} (l : List α) (a : α) :
    (l ++ [a]).eraseIdx l.length = l := by
  induction l with
  | nil => rfl
  | cons x t ih => simpa [List.eraseIdx] using ih

/-- Peeling one `continue`-guard of the spot search. -/
theorem ite_none_some {β : Type _} {c : Prop} [Decidable c] {x : Option β}
    {b : β} (h : (if c then none else x) = some b) : ¬c ∧ x = some b := by
  split at h
  · exact absurd h (by simp)
  · exact ⟨by assumption, h⟩

/-- Soundness of `find_spot_in_container`: a returned spot uses one of the
six orientations, sits at non-negative width/depth on the floor or on an
existing top, respects the container bounds within ε, overlaps nothing, and
is stable. -/
theorem find_spot_sound {item_req : ItemData} {container : ContainerData}
    {placed : List PlacementInfo} {hp : Bool} {pos : Position}
    {ori : Orientation}
    (h : find_spot_in_container item_req container placed hp = some (pos, ori)) :
    ori ∈ orientationsOf item_req ∧
    pos.endCoordinates.width = pos.startCoordinates.width + ori.w ∧
    pos.endCoordinates.depth = pos.startCoordinates.depth + ori.d ∧
    pos.endCoordinates.height = pos.startCoordinates.height + ori.h ∧
    0 ≤ pos.startCoordinates.width ∧
    0 ≤ pos.startCoordinates.depth ∧
    (pos.startCoordinates.height = 0 ∨
      ∃ q ∈ placed,
        pos.startCoordinates.height = q.position.endCoordinates.height) ∧
    pos.endCoordinates.width ≤ container.width + COORD_TOLERANCE ∧
    pos.endCoordinates.depth ≤ container.depth + COORD_TOLERANCE ∧
    pos.endCoordinates.height ≤ container.height + COORD_TOLERANCE ∧
    (∀ q ∈ placed, boxes_overlap pos q.position = false) ∧
    is_stable pos container placed = true := by
  unfold find_spot_in_container at h
  obtain ⟨ori', hori', h1⟩ := findSome?_some h
  obtain ⟨_hC1, h1'⟩ := ite_none_some h1
  obtain ⟨h0, hh0, h2⟩ := findSome?_some h1'
  obtain ⟨_hC2, h2'⟩ := ite_none_some h2
  obtain ⟨dIdx, _hdIdx, h3⟩ := findSome?_some h2'
  obtain ⟨_hC3, h3'⟩ := ite_none_some h3
  obtain ⟨wIdx, _hwIdx, h4⟩ := findSome?_some h3'
  obtain ⟨_hC4, h4'⟩ := ite_none_some h4
  obtain ⟨hC5, h5⟩ := ite_none_some h4'
  obtain ⟨hC6, h6⟩ := ite_none_some h5
  obtain ⟨hC7, h7⟩ := ite_none_some h6
  rw [Option.some_inj] at h7
  injection h7 with hcand horieq
  subst horieq
  subst hcand
  rw [not_or, not_or] at hC5
  obtain ⟨hbw, hbd, hbh⟩ := hC5
  refine ⟨hori', rfl, rfl, rfl, le_max_left _ _, le_max_left _ _,
    possible_base_heights_mem placed h0 hh0, not_lt.mp hbw, not_lt.mp hbd,
    not_lt.mp hbh, ?_, ?_⟩
  · intro q hq
    exact Bool.eq_false_iff.mpr ((List.any_eq_false.mp (eq_false_of_ne_true hC6)) q hq)
  · rw [Bool.not_eq_true', Bool.not_eq_false] at hC7
    exact hC7

/-- The empty container entry satisfies the invariant. -/
theorem EntryInv.nil (c : ContainerData) : EntryInv c [] := by
  refine ⟨?_, ?_, ?_⟩
  · intro pi hpi; simp at hpi
  · intro i j hi hj _; simp at hi
  · intro i hi; simp at hi

/-- Stability depends only on the positions of the support candidates. -/
theorem is_stable_mono_positions {pos : Position} {c : ContainerData}
    {S T : List PlacementInfo} (hS : is_stable pos c S = true)
    (hmap : ∀ x ∈ S, ∃ y ∈ T, y.position = x.position) :
    is_stable pos c T = true := by
  rcases is_stable_elim hS with hf | ⟨q, hq, hh, hw, hd⟩
  · exact is_stable_floor _ _ _ hf
  · obtain ⟨y, hy, hypos⟩ := hmap q hq
    refine is_stable_intro _ _ _ y hy ?_ ?_ ?_
    · rw [hypos]; exact hh
    · rw [hypos]; exact hw
    · rw [hypos]; exact hd

/-- Appending a fresh, in-bounds, non-overlapping, stable placement
preserves the container-entry invariant. -/
theorem EntryInv.append {c : ContainerData} {l : List PlacementInfo}
    (hE : EntryInv c l) {pi : PlacementInfo}
    (hin : in_bounds pi.position c) (hpos : posPositive pi.position)
    (hid : ∀ x ∈ l, x.itemId ≠ pi.itemId)
    (hnov : ∀ q ∈ l, boxes_overlap pi.position q.position = false)
    (hstab : is_stable pi.position c l = true) :
    EntryInv c (l ++ [pi]) := by
  obtain ⟨hB, hP, hS⟩ := hE
  refine ⟨?_, ?_, ?_⟩
  · intro x hx
    rcases List.mem_append.mp hx with hx | hx
    · exact hB x hx
    · rw [List.mem_singleton] at hx
      subst hx
      exact ⟨hin, hpos⟩
  · intro i j hi hj hne
    have hi2 : i < l.length + 1 := by simpa using hi
    have hj2 : j < l.length + 1 := by simpa using hj
    by_cases hi' : i < l.length <;> by_cases hj' : j < l.length
    · rw [List.getElem_append_left hi', List.getElem_append_left hj']
      exact hP i j hi' hj' hne
    · have hj'' : j = l.length := by omega
      rw [List.getElem_append_left hi', List.getElem_concat_length l pi j hj'']
      have hmem : l[i] ∈ l := List.getElem_mem hi'
      exact ⟨by rw [boxes_overlap_comm]; exact hnov _ hmem, hid _ hmem⟩
    · have hi'' : i = l.length := by omega
      rw [List.getElem_append_left hj', List.getElem_concat_length l pi i hi'']
      have hmem : l[j] ∈ l := List.getElem_mem hj'
      exact ⟨hnov _ hmem, fun hcon => hid _ hmem hcon.symm⟩
    · omega
  · intro i hi
    have hi2 : i < l.length + 1 := by simpa using hi
    by_cases hi' : i < l.length
    · rw [List.getElem_append_left hi', List.eraseIdx_append_of_lt_length hi' [pi]]
      exact is_stable_mono_positions (hS i hi')
        (fun x hx => ⟨x, List.mem_append_left _ hx, rfl⟩)
    · have hi'' : i = l.length := by omega
      subst hi''
      rw [List.getElem_concat_length l pi _ rfl, eraseIdx_concat_self]
      exact hstab

/-- Committing a spot the finder returned preserves the entry invariant. -/
theorem entry_commit {c : ContainerData} {l : List PlacementInfo}
    (hEold : EntryInv c l) {item_req : ItemData} {pos : Position}
    {ori : Orientation} {hp : Bool}
    (hfind : find_spot_in_container item_req c l hp = some (pos, ori))
    (hdims : 0 < item_req.width ∧ 0 < item_req.depth ∧ 0 < item_req.height)
    (hids : ∀ x ∈ l, x.itemId ≠ item_req.itemId) (cid : String) (prio : Int) :
    EntryInv c (l ++ [⟨item_req.itemId, cid, pos, prio⟩]) := by
  obtain ⟨hori, hew, hed, heh, hsw, hsd, hsh, hbw, hbd, hbh, hnov, hstab⟩ :=
    find_spot_sound hfind
  have hop := orientations_pos hdims.1 hdims.2.1 hdims.2.2 ori hori
  have htol := tol_pos
  have hin : in_bounds pos c := by
    unfold in_bounds
    refine ⟨by linarith, by linarith, ?_, hbw, hbd, hbh⟩
    rcases hsh with h0 | ⟨q, hq, hqe⟩
    · rw [h0]; linarith
    · obtain ⟨hqin, hqpos⟩ := hEold.1 q hq
      have h1 : 0 - COORD_TOLERANCE ≤ q.position.startCoordinates.height :=
        hqin.2.2.1
      have h2 : q.position.startCoordinates.height <
          q.position.endCoordinates.height := hqpos.2.2
      rw [hqe]
      linarith
  have hpp : posPositive pos := by
    unfold posPositive
    refine ⟨?_, ?_, ?_⟩
    · rw [hew]; linarith [hop.1]
    · rw [hed]; linarith [hop.2.1]
    · rw [heh]; linarith [hop.2.2]
  exact hEold.append hin hpp hids hnov hstab

/-- Ids present after inserting a container entry. -/
theorem simHasId_insert_elim {sim : StrMap (List PlacementInfo)}
    {cid : String} {l : List PlacementInfo} {id : String}
    (h : SimHasId (StrMap.insert cid l sim) id) :
    (∃ pi ∈ l, pi.itemId = id) ∨ SimHasId sim id := by
  obtain ⟨kv, hkv, pi, hpi, hid⟩ := h
  rcases StrMap.mem_insert_elim hkv with h' | h'
  · subst h'
    exact Or.inl ⟨pi, hpi, hid⟩
  · exact Or.inr ⟨kv, h', pi, hpi, hid⟩

/-- Membership in a (possibly missing) simulated container entry implies the
id is in the simulation. -/
theorem simHasId_of_getD {sim : StrMap (List PlacementInfo)} {cid : String}
    {x : PlacementInfo} (hx : x ∈ (StrMap.find? cid sim).getD []) :
    SimHasId sim x.itemId := by
  rcases hfind : StrMap.find? cid sim with _ | l
  · rw [hfind] at hx; simp at hx
  · rw [hfind] at hx
    exact ⟨(cid, l), StrMap.find?_some_mem hfind, x, hx, rfl⟩

/-- The entry invariant of a (possibly missing) simulated container entry. -/
theorem entryInv_of_getD {cm : StrMap ContainerData}
    {sim : StrMap (List PlacementInfo)} (hS : SimInv cm sim) {cid : String}
    {c : ContainerData} (hc : StrMap.find? cid cm = some c) :
    EntryInv c ((StrMap.find? cid sim).getD []) := by
  rcases hfind : StrMap.find? cid sim with _ | l
  · exact EntryInv.nil c
  · obtain ⟨c', hc', hE⟩ := hS _ (StrMap.find?_some_mem hfind)
    rw [hc] at hc'
    obtain rfl := Option.some_inj.mp hc'
    exact hE

/-- Committing a found spot preserves the simulation invariant. -/
theorem SimInv.commit_spot {cm : StrMap ContainerData}
    {sim : StrMap (List PlacementInfo)} (hS : SimInv cm sim)
    {cid : String} {c : ContainerData} (hc : StrMap.find? cid cm = some c)
    {item_req : ItemData} {pos : Position} {ori : Orientation} {hp : Bool}
    (hfind : find_spot_in_container item_req c
      ((StrMap.find? cid sim).getD []) hp = some (pos, ori))
    (hdims : 0 < item_req.width ∧ 0 < item_req.depth ∧ 0 < item_req.height)
    (hfresh : ¬SimHasId sim item_req.itemId) :
    SimInv cm (StrMap.insert cid (((StrMap.find? cid sim).getD []) ++
      [⟨item_req.itemId, cid, pos, item_req.priority⟩]) sim) := by
  have hEold := entryInv_of_getD hS hc
  have hids : ∀ x ∈ (StrMap.find? cid sim).getD [],
      x.itemId ≠ item_req.itemId := by
    intro x hx heq
    exact hfresh (heq ▸ simHasId_of_getD hx)
  have hEnew := entry_commit hEold hfind hdims hids cid item_req.priority
  intro kv hkv
  rcases StrMap.mem_insert_elim hkv with h' | h'
  · rw [h']
    exact ⟨c, hc, hEnew⟩
  · exact hS kv h'


/-- What a successful preferred-zone container walk returns. -/
theorem tryPreferredContainers_sound {containers_map : StrMap ContainerData}
    {sim : StrMap (List PlacementInfo)} {item_req : ItemData} {hp : Bool}
    {z : String} :
    ∀ {cids : List String} {cid : String} {pos : Position},
      tryPreferredContainers containers_map sim item_req hp z cids =
        some (cid, pos) →
      cid ∈ cids ∧ ∃ ori,
        find_spot_in_container item_req
          ((StrMap.find? cid containers_map).getD default)
          ((StrMap.find? cid sim).getD []) hp = some (pos, ori) := by
  intro cids
  induction cids with
  | nil => intro cid pos h; simp [tryPreferredContainers] at h
  | cons c0 rest ih =>
    intro cid pos h
    unfold tryPreferredContainers at h
    simp only [] at h
    split at h
    · rcases hfind : find_spot_in_container item_req
          ((StrMap.find? c0 containers_map).getD default)
          ((StrMap.find? c0 sim).getD []) hp with _ | pr
      · rw [hfind] at h
        obtain ⟨hmem, hrest⟩ := ih h
        exact ⟨List.mem_cons_of_mem _ hmem, hrest⟩
      · rw [hfind] at h
        obtain ⟨rfl, rfl⟩ : c0 = cid ∧ pr.1 = pos := by
          constructor <;> [injection (Option.some_inj.mp h) with h1 h2;
            injection (Option.some_inj.mp h) with h1 h2] <;> simp [h1.symm, h2.symm]
        exact ⟨List.mem_cons_self _ _, ⟨pr.2, by rw [hfind]⟩⟩
    · obtain ⟨hmem, hrest⟩ := ih h
      exact ⟨List.mem_cons_of_mem _ hmem, hrest⟩

/-- What a successful any-container walk returns. -/
theorem tryAnyContainer_sound {containers_map : StrMap ContainerData}
    {sim : StrMap (List PlacementInfo)} {item_req : ItemData} {hp : Bool} :
    ∀ {cids : List String} {cid : String} {pos : Position},
      tryAnyContainer containers_map sim item_req hp cids = some (cid, pos) →
      cid ∈ cids ∧ ∃ ori,
        find_spot_in_container item_req
          ((StrMap.find? cid containers_map).getD default)
          ((StrMap.find? cid sim).getD []) hp = some (pos, ori) := by
  intro cids
  induction cids with
  | nil => intro cid pos h; simp [tryAnyContainer] at h
  | cons c0 rest ih =>
    intro cid pos h
    unfold tryAnyContainer at h
    simp only [] at h
    rcases hfind : find_spot_in_container item_req
        ((StrMap.find? c0 containers_map).getD default)
        ((StrMap.find? c0 sim).getD []) hp with _ | pr
    · rw [hfind] at h
      obtain ⟨hmem, hrest⟩ := ih h
      exact ⟨List.mem_cons_of_mem _ hmem, hrest⟩
    · rw [hfind] at h
      obtain ⟨rfl, rfl⟩ : c0 = cid ∧ pr.1 = pos := by
        constructor <;> [injection (Option.some_inj.mp h) with h1 h2;
          injection (Option.some_inj.mp h) with h1 h2] <;> simp [h1.symm, h2.symm]
      exact ⟨List.mem_cons_self _ _, ⟨pr.2, by rw [hfind]⟩⟩

/-- The three possible outcomes of one Phase-1 iteration. -/
theorem phase1Step_cases (cm : StrMap ContainerData) (cids : List String)
    (st : Phase1State) (it : ItemData) :
    phase1Step cm cids st it = st ∨
    phase1Step cm cids st it = { st with pass2 := st.pass2 ++ [it] } ∨
    ∃ cid pos ori, cid ∈ cids ∧
      find_spot_in_container it ((StrMap.find? cid cm).getD default)
        ((StrMap.find? cid st.sim).getD [])
        (decide (it.priority ≥ 75)) = some (pos, ori) ∧
      phase1Step cm cids st it = commitSpot st it cid pos := by
  by_cases hb : it.itemId ∈ st.processed
  · left
    simp [phase1Step, hb]
  · rcases hz : it.preferredZone with _ | z
    · right; left
      simp [phase1Step, hb, hz]
    · rcases htry : tryPreferredContainers cm st.sim it
          (decide (it.priority ≥ 75)) z cids with _ | ⟨cid, pos⟩
      · right; left
        simp [phase1Step, hb, hz, htry]
      · obtain ⟨hmem, ori, hfind⟩ := tryPreferredContainers_sound htry
        right; right
        exact ⟨cid, pos, ori, hmem, hfind, by simp [phase1Step, hb, hz, htry]⟩

/-- The three possible outcomes of one Phase-3 iteration. -/
theorem phase3Step_cases (cm : StrMap ContainerData) (cids : List String)
    (st : Phase3State) (it : ItemData) :
    phase3Step cm cids st it = st ∨
    (∃ cid pos ori, cid ∈ cids ∧
      find_spot_in_container it ((StrMap.find? cid cm).getD default)
        ((StrMap.find? cid st.sim).getD [])
        (decide (it.priority ≥ 75)) = some (pos, ori) ∧
      phase3Step cm cids st it = commitSpot3 st it cid pos) ∨
    phase3Step cm cids st it =
      { st with
        failed := st.failed ++ [it.itemId]
        processed := it.itemId :: st.processed
        success := false
        error := if st.error = none then
            some "Placement failed for one or more items." else st.error } := by
  by_cases hb : it.itemId ∈ st.processed
  · left
    simp [phase3Step, hb]
  · rcases htry : tryAnyContainer cm st.sim it
        (decide (it.priority ≥ 75)) cids with _ | ⟨cid, pos⟩
    · right; right
      simp [phase3Step, hb, htry]
    · obtain ⟨hmem, ori, hfind⟩ := tryAnyContainer_sound htry
      right; left
      exact ⟨cid, pos, ori, hmem, hfind, by simp [phase3Step, hb, htry]⟩


/-- In a map with distinct keys, membership determines `find?`. -/
theorem StrMap.find?_eq_of_mem_nodup {α : Type} {m : StrMap α}
    (hnd : (m.map Prod.fst).Nodup) {k : String} {v : α}
    (hmem : (k, v) ∈ StrMap.toList m) : StrMap.find? k m = some v := by
  induction m with
  | nil => simp [StrMap.toList] at hmem
  | cons kv0 rest ih =>
    obtain ⟨k0, v0⟩ := kv0
    simp only [List.map_cons, List.nodup_cons] at hnd
    rcases List.mem_cons.mp hmem with h | h
    · obtain ⟨rfl, rfl⟩ := Prod.mk.injEq .. |>.mp h
      unfold StrMap.find?
      rw [if_pos rfl]
    · have hk : k ≠ k0 := by
        intro hc
        subst hc
        exact hnd.1 (List.mem_map_of_mem Prod.fst h)
      unfold StrMap.find?
      rw [if_neg hk]
      exact ih hnd.2 h

/-- With unique container ids, `containers_map` finds each container. -/
theorem containersMapOf_find {containers_input : List ContainerData}
    (hnd : (containers_input.map (·.containerId)).Nodup)
    {c : ContainerData} (hc : c ∈ containers_input) :
    StrMap.find? c.containerId (containersMapOf containers_input) = some c := by
  have hperm := foldl_insert_perm (fun c : ContainerData => c.containerId)
    (fun c => c) containers_input [] hnd (by simp)
  have hkeys : ((containersMapOf containers_input).map Prod.fst).Perm
      (containers_input.map (·.containerId)) := by
    have hmap := hperm.map Prod.fst
    simpa [List.map_map, Function.comp_def] using hmap
  refine StrMap.find?_eq_of_mem_nodup (hkeys.nodup_iff.mpr hnd) ?_
  refine hperm.mem_iff.mpr ?_
  rw [List.nil_append]
  exact List.mem_map_of_mem _ hc

/-- Every container id of the job resolves in `containers_map`. -/
theorem containersMapOf_total {containers_input : List ContainerData}
    (hnd : (containers_input.map (·.containerId)).Nodup) :
    ∀ cid ∈ containers_input.map (·.containerId),
      ∃ c, StrMap.find? cid (containersMapOf containers_input) = some c := by
  intro cid hcid
  obtain ⟨c, hc, rfl⟩ := List.mem_map.mp hcid
  exact ⟨c, containersMapOf_find hnd hc⟩

/-- An element of `eraseIdx` sits at an index different from the erased one. -/
theorem mem_eraseIdx_idx {α : Type _} :
    ∀ (l : List α) (i : ℕ) (x : α), x ∈ l.eraseIdx i →
      ∃ j, ∃ hj : j < l.length, j ≠ i ∧ l[j] = x := by
  intro l
  induction l with
  | nil => intro i x hx; simp [List.eraseIdx] at hx
  | cons a t ih =>
    intro i x hx
    rcases i with _ | i'
    · rw [List.eraseIdx_cons_zero] at hx
      obtain ⟨⟨j, hj⟩, hget⟩ := List.mem_iff_get.mp hx
      exact ⟨j + 1, by simpa using hj, by omega,
        by rw [List.getElem_cons_succ]; exact hget⟩
    · rw [List.eraseIdx_cons_succ] at hx
      rcases List.mem_cons.mp hx with rfl | hx'
      · exact ⟨0, by simp, by omega, rfl⟩
      · obtain ⟨j, hj, hne, hget⟩ := ih i' x hx'
        exact ⟨j + 1, by simpa using hj, by omega,
          by rw [List.getElem_cons_succ]; exact hget⟩

/-- Committing a found spot preserves map/simulation agreement. -/
theorem MapSimAgree.commit_agree {finalMap : StrMap PlacementResult}
    {sim : StrMap (List PlacementInfo)} (hA : MapSimAgree finalMap sim)
    {cid : String} {pos : Position} {item_req : ItemData}
    (hfresh : ¬SimHasId sim item_req.itemId) :
    MapSimAgree
      (StrMap.insert item_req.itemId ⟨item_req.itemId, cid, pos⟩ finalMap)
      (StrMap.insert cid (((StrMap.find? cid sim).getD []) ++
        [⟨item_req.itemId, cid, pos, item_req.priority⟩]) sim) := by
  obtain ⟨hF, hSm⟩ := hA
  constructor
  · intro kv hkv
    rcases StrMap.mem_insert_elim hkv with h' | h'
    · subst h'
      refine ⟨((StrMap.find? cid sim).getD []) ++
        [⟨item_req.itemId, cid, pos, item_req.priority⟩], ?_, ?_⟩
      · rw [StrMap.find?_insert]
        simp
      · exact ⟨⟨item_req.itemId, cid, pos, item_req.priority⟩,
          List.mem_append_right _ (List.mem_singleton.mpr rfl), rfl, rfl⟩
    · obtain ⟨l, hl, pi, hpi, hpiid, hpipos⟩ := hF kv h'
      by_cases hcid : (kv.2 : PlacementResult).containerId = cid
      · refine ⟨((StrMap.find? cid sim).getD []) ++
          [⟨item_req.itemId, cid, pos, item_req.priority⟩], ?_, pi, ?_,
          hpiid, hpipos⟩
        · rw [hcid, StrMap.find?_insert, if_pos rfl]
        · rw [hcid] at hl
          rw [hl]
          exact List.mem_append_left _ (by simpa using hpi)
      · exact ⟨l, by rw [StrMap.find?_insert, if_neg hcid]; exact hl,
          pi, hpi, hpiid, hpipos⟩
  · intro kv hkv pi hpi
    rcases StrMap.mem_insert_elim hkv with h' | h'
    · subst h'
      rcases List.mem_append.mp hpi with hpi' | hpi'
      · have hneq : pi.itemId ≠ item_req.itemId := fun hc =>
          hfresh (hc ▸ simHasId_of_getD hpi')
        rw [StrMap.find?_insert, if_neg hneq]
        rcases hfind : StrMap.find? cid sim with _ | l
        · rw [hfind] at hpi'; simp at hpi'
        · rw [hfind] at hpi'
          simp only [Option.getD_some] at hpi'
          exact hSm (cid, l) (StrMap.find?_some_mem hfind) pi hpi'
      · rw [List.mem_singleton] at hpi'
        subst hpi'
        rw [StrMap.find?_insert, if_pos rfl]
    · have hneq : pi.itemId ≠ item_req.itemId := fun hc =>
        hfresh (hc ▸ ⟨kv, h', pi, hpi, rfl⟩)
      rw [StrMap.find?_insert, if_neg hneq]
      exact hSm kv h' pi hpi

/-- Ids present after a commit. -/
theorem simHasId_commit_elim {sim : StrMap (List PlacementInfo)}
    {cid : String} {pi0 : PlacementInfo} {id : String}
    (h : SimHasId (StrMap.insert cid
      (((StrMap.find? cid sim).getD []) ++ [pi0]) sim) id) :
    SimHasId sim id ∨ id = pi0.itemId := by
  rcases simHasId_insert_elim h with ⟨pi, hpi, hid⟩ | h'
  · rcases List.mem_append.mp hpi with hpi' | hpi'
    · exact Or.inl (hid ▸ simHasId_of_getD hpi')
    · rw [List.mem_singleton] at hpi'
      subst hpi'
      exact Or.inr hid.symm
  · exact Or.inl h'

/-- A committed simulation still mentions no failed id. -/
theorem SimNotFailed.commit_nf {sim : StrMap (List PlacementInfo)}
    {failed : List String} (h : SimNotFailed sim failed) {cid : String}
    {item_req : ItemData} {pos : Position}
    (hnf : item_req.itemId ∉ failed) :
    SimNotFailed (StrMap.insert cid (((StrMap.find? cid sim).getD []) ++
      [⟨item_req.itemId, cid, pos, item_req.priority⟩]) sim) failed := by
  intro kv hkv pi hpi
  rcases StrMap.mem_insert_elim hkv with h' | h'
  · subst h'
    rcases List.mem_append.mp hpi with hpi' | hpi'
    · rcases hfind : StrMap.find? cid sim with _ | l
      · rw [hfind] at hpi'; simp at hpi'
      · rw [hfind] at hpi'
        simp only [Option.getD_some] at hpi'
        exact h (cid, l) (StrMap.find?_some_mem hfind) pi hpi'
    · rw [List.mem_singleton] at hpi'
      subst hpi'
      exact hnf
  · exact h kv h' pi hpi

/-- Failing an id absent from the simulation keeps the simulation clean. -/
theorem SimNotFailed.fail {sim : StrMap (List PlacementInfo)}
    {failed : List String} (h : SimNotFailed sim failed) {id : String}
    (hfresh : ¬SimHasId sim id) : SimNotFailed sim (failed ++ [id]) := by
  intro kv hkv pi hpi hmem
  rcases List.mem_append.mp hmem with hmem' | hmem'
  · exact h kv hkv pi hpi hmem'
  · rw [List.mem_singleton] at hmem'
    exact hfresh (hmem' ▸ ⟨kv, hkv, pi, hpi, rfl⟩)

/-- Phase 1 preserves the geometric and agreement invariants, and leaves a
backlog of fresh, positive-dimension, distinct-id items. -/
theorem phase1_fold_geo (cm : StrMap ContainerData) (cids : List String)
    (hcm : ∀ cid ∈ cids, ∃ c, StrMap.find? cid cm = some c) :
    ∀ (l : List ItemData) (st : Phase1State),
      SimInv cm st.sim →
      MapSimAgree st.finalMap st.sim →
      (∀ it ∈ l, ¬SimHasId st.sim it.itemId) →
      (∀ it ∈ l, 0 < it.width ∧ 0 < it.depth ∧ 0 < it.height) →
      ((l.map (·.itemId)).Nodup) →
      (∀ it ∈ l, ∀ x ∈ st.pass2, x.itemId ≠ it.itemId) →
      (∀ x ∈ st.pass2, ¬SimHasId st.sim x.itemId) →
      (∀ x ∈ st.pass2, 0 < x.width ∧ 0 < x.depth ∧ 0 < x.height) →
      ((st.pass2.map (·.itemId)).Nodup) →
      SimInv cm (l.foldl (phase1Step cm cids) st).sim ∧
      MapSimAgree (l.foldl (phase1Step cm cids) st).finalMap
        (l.foldl (phase1Step cm cids) st).sim ∧
      (∀ x ∈ (l.foldl (phase1Step cm cids) st).pass2,
        ¬SimHasId (l.foldl (phase1Step cm cids) st).sim x.itemId) ∧
      (∀ x ∈ (l.foldl (phase1Step cm cids) st).pass2,
        0 < x.width ∧ 0 < x.depth ∧ 0 < x.height) ∧
      (((l.foldl (phase1Step cm cids) st).pass2.map (·.itemId)).Nodup) := by
  intro l
  induction l with
  | nil =>
    intro st h1 h2 _ _ _ _ p1 p2 p3
    exact ⟨h1, h2, p1, p2, p3⟩
  | cons a t ih =>
    intro st hSim hAgree hfresh hdims hnd hsep hp1 hp2 hp3
    rw [List.foldl_cons]
    have hnd_head : a.itemId ∉ t.map (·.itemId) := by
      simp only [List.map_cons, List.nodup_cons] at hnd
      exact hnd.1
    have hnd_tail : (t.map (·.itemId)).Nodup := by
      simp only [List.map_cons, List.nodup_cons] at hnd
      exact hnd.2
    rcases phase1Step_cases cm cids st a with hcase | hcase |
      ⟨cid, pos, ori, hmem, hfind, hcase⟩
    · rw [hcase]
      exact ih st hSim hAgree
        (fun it hit => hfresh it (List.mem_cons_of_mem _ hit))
        (fun it hit => hdims it (List.mem_cons_of_mem _ hit)) hnd_tail
        (fun it hit => hsep it (List.mem_cons_of_mem _ hit)) hp1 hp2 hp3
    · rw [hcase]
      refine ih _ hSim hAgree
        (fun it hit => hfresh it (List.mem_cons_of_mem _ hit))
        (fun it hit => hdims it (List.mem_cons_of_mem _ hit)) hnd_tail
        ?_ ?_ ?_ ?_
      · intro it hit x hx
        rcases List.mem_append.mp hx with hx' | hx'
        · exact hsep it (List.mem_cons_of_mem _ hit) x hx'
        · rw [List.mem_singleton] at hx'
          subst hx'
          intro hc
          exact hnd_head (hc ▸ List.mem_map_of_mem _ hit)
      · intro x hx
        rcases List.mem_append.mp hx with hx' | hx'
        · exact hp1 x hx'
        · rw [List.mem_singleton] at hx'
          subst hx'
          exact hfresh _ (List.mem_cons_self _ _)
      · intro x hx
        rcases List.mem_append.mp hx with hx' | hx'
        · exact hp2 x hx'
        · rw [List.mem_singleton] at hx'
          subst hx'
          exact hdims _ (List.mem_cons_self _ _)
      · rw [List.map_append, List.nodup_append]
        refine ⟨hp3, by simp, ?_⟩
        intro y hy hy'
        obtain ⟨x, hx, rfl⟩ := List.mem_map.mp hy
        have hy'' : x.itemId = a.itemId := by simpa using hy'
        exact hsep a (List.mem_cons_self _ _) x hx hy''
    · obtain ⟨c, hc⟩ := hcm cid hmem
      have hcdflt : (StrMap.find? cid cm).getD default = c := by rw [hc]; rfl
      rw [hcdflt] at hfind
      rw [hcase]
      have hfa := hfresh a (List.mem_cons_self _ _)
      have hda := hdims a (List.mem_cons_self _ _)
      refine ih _ (hSim.commit_spot hc hfind hda hfa) (hAgree.commit_agree hfa) ?_
        (fun it hit => hdims it (List.mem_cons_of_mem _ hit)) hnd_tail
        (fun it hit x hx => hsep it (List.mem_cons_of_mem _ hit) x hx)
        ?_ hp2 hp3
      · intro it hit hhas
        rcases simHasId_commit_elim hhas with h' | h'
        · exact hfresh it (List.mem_cons_of_mem _ hit) h'
        · have h'' : it.itemId = a.itemId := h'
          exact hnd_head (h'' ▸ List.mem_map_of_mem _ hit)
      · intro x hx hhas
        rcases simHasId_commit_elim hhas with h' | h'
        · exact hp1 x hx h'
        · have h'' : x.itemId = a.itemId := h'
          exact hsep a (List.mem_cons_self _ _) x hx h''

/-- Phase 3 preserves the geometric, agreement and failed-id invariants. -/
theorem phase3_fold_geo (cm : StrMap ContainerData) (cids : List String)
    (hcm : ∀ cid ∈ cids, ∃ c, StrMap.find? cid cm = some c) :
    ∀ (l : List ItemData) (st : Phase3State),
      SimInv cm st.sim →
      MapSimAgree st.finalMap st.sim →
      SimNotFailed st.sim st.failed →
      (∀ it ∈ l, ¬SimHasId st.sim it.itemId) →
      (∀ it ∈ l, 0 < it.width ∧ 0 < it.depth ∧ 0 < it.height) →
      ((l.map (·.itemId)).Nodup) →
      (∀ it ∈ l, it.itemId ∉ st.failed) →
      SimInv cm (l.foldl (phase3Step cm cids) st).sim ∧
      MapSimAgree (l.foldl (phase3Step cm cids) st).finalMap
        (l.foldl (phase3Step cm cids) st).sim ∧
      SimNotFailed (l.foldl (phase3Step cm cids) st).sim
        (l.foldl (phase3Step cm cids) st).failed := by
  intro l
  induction l with
  | nil =>
    intro st h1 h2 h3 _ _ _ _
    exact ⟨h1, h2, h3⟩
  | cons a t ih =>
    intro st hSim hAgree hNF hfresh hdims hnd hnfail
    rw [List.foldl_cons]
    have hnd_head : a.itemId ∉ t.map (·.itemId) := by
      simp only [List.map_cons, List.nodup_cons] at hnd
      exact hnd.1
    have hnd_tail : (t.map (·.itemId)).Nodup := by
      simp only [List.map_cons, List.nodup_cons] at hnd
      exact hnd.2
    rcases phase3Step_cases cm cids st a with hcase |
      ⟨cid, pos, ori, hmem, hfind, hcase⟩ | hcase
    · rw [hcase]
      exact ih st hSim hAgree hNF
        (fun it hit => hfresh it (List.mem_cons_of_mem _ hit))
        (fun it hit => hdims it (List.mem_cons_of_mem _ hit)) hnd_tail
        (fun it hit => hnfail it (List.mem_cons_of_mem _ hit))
    · obtain ⟨c, hc⟩ := hcm cid hmem
      have hcdflt : (StrMap.find? cid cm).getD default = c := by rw [hc]; rfl
      rw [hcdflt] at hfind
      rw [hcase]
      have hfa := hfresh a (List.mem_cons_self _ _)
      have hda := hdims a (List.mem_cons_self _ _)
      refine ih _ (hSim.commit_spot hc hfind hda hfa) (hAgree.commit_agree hfa)
        (hNF.commit_nf (hnfail a (List.mem_cons_self _ _))) ?_
        (fun it hit => hdims it (List.mem_cons_of_mem _ hit)) hnd_tail
        (fun it hit => hnfail it (List.mem_cons_of_mem _ hit))
      · intro it hit hhas
        rcases simHasId_commit_elim hhas with h' | h'
        · exact hfresh it (List.mem_cons_of_mem _ hit) h'
        · have h'' : it.itemId = a.itemId := h'
          exact hnd_head (h'' ▸ List.mem_map_of_mem _ hit)
    · rw [hcase]
      refine ih _ hSim hAgree (hNF.fail (hfresh a (List.mem_cons_self _ _)))
        (fun it hit => hfresh it (List.mem_cons_of_mem _ hit))
        (fun it hit => hdims it (List.mem_cons_of_mem _ hit)) hnd_tail ?_
      · intro it hit hmem'
        rcases List.mem_append.mp hmem' with h' | h'
        · exact hnfail it (List.mem_cons_of_mem _ hit) h'
        · rw [List.mem_singleton] at h'
          exact hnd_head (h' ▸ List.mem_map_of_mem _ hit)


/-- `ofList` of a distinct-key binding list is a permutation of it. -/
theorem StrMap.ofList_perm {α : Type} {l : List (String × α)}
    (hnd : (l.map Prod.fst).Nodup) : (StrMap.ofList l).Perm l := by
  have h := foldl_insert_perm Prod.fst Prod.snd l [] hnd (by simp)
  have hmap_id : l.map (fun b => (b.1, b.2)) = l := List.map_id' _
  rw [List.nil_append, hmap_id] at h
  exact h

/-- Ids in the cloned live state come from the live placements. -/
theorem simHasId_ofList {cur : List (String × List PlacementInfo)}
    (hkeys : (cur.map Prod.fst).Nodup) {id : String}
    (h : SimHasId (StrMap.ofList cur) id) :
    ∃ pr ∈ cur, ∃ pi ∈ pr.2, pi.itemId = id := by
  obtain ⟨kv, hkv, pi, hpi, hid⟩ := h
  exact ⟨kv, (StrMap.ofList_perm hkeys).mem_iff.mp hkv, pi, hpi, hid⟩

/-- A valid live state satisfies the simulation invariant. -/
theorem db_simInv {containers_input : List ContainerData}
    {cur : List (String × List PlacementInfo)}
    (hcnd : (containers_input.map (·.containerId)).Nodup)
    (hv : ValidCurrentPlacements containers_input cur) :
    SimInv (containersMapOf containers_input) (StrMap.ofList cur) := by
  obtain ⟨hkeys, hids, hval⟩ := hv
  intro kv hkv
  have hkv' : kv ∈ cur := (StrMap.ofList_perm hkeys).mem_iff.mp hkv
  obtain ⟨c, hcmem, hcid, hbounds, hpair, hstab⟩ := hval kv hkv'
  have hnd_entry : (kv.2.map (·.itemId)).Nodup := by
    refine List.Sublist.nodup ?_ hids
    exact List.sublist_flatten_of_mem
      (List.mem_map_of_mem (fun pr => pr.2.map (·.itemId)) hkv')
  refine ⟨c, ?_, hbounds, ?_, ?_⟩
  · rw [← hcid]
    exact containersMapOf_find hcnd hcmem
  · intro i j hi hj hne
    have hpg := List.pairwise_iff_getElem.mp hpair
    have hndg := List.pairwise_iff_getElem.mp hnd_entry
    have hilen : i < (kv.2.map (·.itemId)).length := by simpa using hi
    have hjlen : j < (kv.2.map (·.itemId)).length := by simpa using hj
    rcases Nat.lt_or_ge i j with hij | hij
    · refine ⟨hpg i j hi hj hij, ?_⟩
      have := hndg i j hilen hjlen hij
      rw [List.getElem_map, List.getElem_map] at this
      exact this
    · have hji : j < i := by omega
      refine ⟨by rw [boxes_overlap_comm]; exact hpg j i hj hi hji, ?_⟩
      have := hndg j i hjlen hilen hji
      rw [List.getElem_map, List.getElem_map] at this
      exact fun hc => this hc.symm
  · intro i hi
    have := hstab i hi
    rw [List.get_eq_getElem] at this
    exact this

/-- The Phase-0 seed agrees with the cloned live state. -/
theorem seed_agree {cur : List (String × List PlacementInfo)}
    (hkeys : (cur.map Prod.fst).Nodup)
    (hids : ((cur.map (·.2.map (·.itemId))).flatten).Nodup) :
    MapSimAgree (finalSeedOf (StrMap.ofList cur)) (StrMap.ofList cur) := by
  have hdbperm : (StrMap.ofList cur).Perm cur := StrMap.ofList_perm hkeys
  have hdb_keys : ((StrMap.ofList cur).map Prod.fst).Nodup :=
    ((hdbperm.map Prod.fst).nodup_iff).mpr hkeys
  have hcur_ids : (cur.flatMap (fun pr => pr.2.map (·.itemId))).Nodup := by
    rw [List.flatMap_def]
    exact hids
  have hdb_ids : ((StrMap.ofList cur).flatMap
      (fun pr => pr.2.map (·.itemId))).Nodup :=
    ((hdbperm.flatMap_right _).nodup_iff).mpr hcur_ids
  have hseedperm := seed_fold_perm (StrMap.ofList cur) [] hdb_ids (by simp)
  rw [List.nil_append] at hseedperm
  have hseed_keys : ((finalSeedOf (StrMap.ofList cur)).map Prod.fst).Nodup := by
    have hmap := hseedperm.map Prod.fst
    rw [List.map_flatMap] at hmap
    simp only [List.map_map, Function.comp_def] at hmap
    exact (hmap.nodup_iff).mpr hdb_ids
  constructor
  · intro kv hkv
    have hkv' := hseedperm.mem_iff.mp hkv
    obtain ⟨pr, hpr, hkv''⟩ := List.mem_flatMap.mp hkv'
    obtain ⟨pi, hpi, rfl⟩ := List.mem_map.mp hkv''
    refine ⟨pr.2, ?_, pi, hpi, rfl, rfl⟩
    exact StrMap.find?_eq_of_mem_nodup hdb_keys (by simpa using hpr)
  · intro kv hkv pi hpi
    refine StrMap.find?_eq_of_mem_nodup hseed_keys ?_
    refine hseedperm.mem_iff.mpr ?_
    exact List.mem_flatMap.mpr ⟨kv, hkv, List.mem_map.mpr ⟨pi, hpi, rfl⟩⟩


/-- From the final-state invariants to the three output properties:
pairwise no-overlap per container, in-bounds, and stability against the
other output placements of the same container. -/
theorem geo_core {cm : StrMap ContainerData} {st3 : Phase3State}
    (hSim : SimInv cm st3.sim)
    (hAgree : MapSimAgree st3.finalMap st3.sim)
    (hNF : SimNotFailed st3.sim st3.failed)
    (hWK : WellKeyed st3.finalMap) :
    (∀ p ∈ (assembleOutput st3).placements,
      ∀ q ∈ (assembleOutput st3).placements,
      p.itemId ≠ q.itemId → p.containerId = q.containerId →
      boxes_overlap p.position q.position = false) ∧
    (∀ p ∈ (assembleOutput st3).placements,
      ∃ c, StrMap.find? p.containerId cm = some c ∧ in_bounds p.position c) ∧
    (∀ p ∈ (assembleOutput st3).placements,
      ∃ c, StrMap.find? p.containerId cm = some c ∧
        is_stable p.position c
          (((assembleOutput st3).placements.filter (fun q =>
            q.containerId == p.containerId && q.itemId != p.itemId)).map
            resultAsInfo) = true) := by
  have hfact : ∀ p ∈ (assembleOutput st3).placements,
      ∃ L, StrMap.find? p.containerId st3.sim = some L ∧
        ∃ i, ∃ hi : i < L.length,
          L[i].itemId = p.itemId ∧ L[i].position = p.position := by
    intro p hp
    obtain ⟨kv, hkv, hcont, rfl⟩ := (mem_assemble_placements st3 _).mp hp
    obtain ⟨L, hL, pi, hpimem, hpiid, hpipos⟩ := hAgree.1 kv hkv
    obtain ⟨⟨i, hi⟩, hget⟩ := List.mem_iff_get.mp hpimem
    rw [List.get_eq_getElem] at hget
    refine ⟨L, hL, i, hi, ?_, ?_⟩
    · rw [hget, hpiid]
      exact (hWK kv hkv).symm
    · rw [hget]
      exact hpipos
  refine ⟨?_, ?_, ?_⟩
  · intro p hp q hq hne hcid
    obtain ⟨L, hL, i, hi, hiid, hipos⟩ := hfact p hp
    obtain ⟨L', hL', j, hj, hjid, hjpos⟩ := hfact q hq
    rw [← hcid, hL] at hL'
    obtain rfl : L = L' := Option.some_inj.mp hL'
    obtain ⟨c, hc, hE⟩ := hSim (p.containerId, L) (StrMap.find?_some_mem hL)
    have hne_idx : i ≠ j := by
      intro hij
      subst hij
      exact hne (by rw [← hiid, hjid])
    have hov := (hE.2.1 i j hi hj hne_idx).1
    rw [hipos, hjpos] at hov
    exact hov
  · intro p hp
    obtain ⟨L, hL, i, hi, hiid, hipos⟩ := hfact p hp
    obtain ⟨c, hc, hE⟩ := hSim (p.containerId, L) (StrMap.find?_some_mem hL)
    refine ⟨c, hc, ?_⟩
    have hib := (hE.1 L[i] (List.getElem_mem hi)).1
    rw [hipos] at hib
    exact hib
  · intro p hp
    obtain ⟨L, hL, i, hi, hiid, hipos⟩ := hfact p hp
    obtain ⟨c, hc, hE⟩ := hSim (p.containerId, L) (StrMap.find?_some_mem hL)
    refine ⟨c, hc, ?_⟩
    have hstab := hE.2.2 i hi
    rw [hipos] at hstab
    refine is_stable_mono_positions hstab ?_
    intro x hx
    obtain ⟨j, hj, hne_idx, hgetj⟩ := mem_eraseIdx_idx L i x hx
    have hxid : x.itemId ≠ p.itemId := by
      rw [← hiid, ← hgetj]
      exact (hE.2.1 j i hj hi hne_idx).2
    have hxmem : x ∈ L := by
      rw [← hgetj]
      exact List.getElem_mem hj
    have hsim_mem : (p.containerId, L) ∈ StrMap.toList st3.sim :=
      StrMap.find?_some_mem hL
    have hxfm := hAgree.2 (p.containerId, L) hsim_mem x hxmem
    have hxnf : x.itemId ∉ st3.failed := hNF _ hsim_mem x hxmem
    have hq : (⟨x.itemId, p.containerId, x.position⟩ : PlacementResult) ∈
        (assembleOutput st3).placements := by
      refine (mem_assemble_placements st3 _).mpr
        ⟨(x.itemId, ⟨x.itemId, p.containerId, x.position⟩),
          StrMap.find?_some_mem hxfm, ?_, rfl⟩
      rcases hb : st3.failed.contains x.itemId with _ | _
      · rfl
      · exact absurd (List.elem_iff.mp hb) hxnf
    refine ⟨resultAsInfo ⟨x.itemId, p.containerId, x.position⟩, ?_, rfl⟩
    refine List.mem_map.mpr ⟨⟨x.itemId, p.containerId, x.position⟩, ?_, rfl⟩
    refine List.mem_filter.mpr ⟨hq, ?_⟩
    simp [hxid]


/-! ## Claims -/

/-- C2: `is_stable(pos, container, placed)` returns true iff either the base
is on the floor (`|pos.start.h| < ε`), or some placed item `q` has its top at
the candidate's base height (`|q.end.h − pos.start.h| < ε`) and the `(w, d)`
projections overlap with strictly positive area — with exactly the per-axis
strict-overlap predicate out of which `boxes_overlap` is built (second
conjunct), restricted to the width and depth axes. -/
theorem C2_is_stable_characterisation :
    (∀ (pos : Position) (container : ContainerData) (placed : List PlacementInfo),
      is_stable pos container placed = true ↔
        (|pos.startCoordinates.height| < COORD_TOLERANCE ∨
         ∃ q ∈ placed,
           |q.position.endCoordinates.height - pos.startCoordinates.height| <
             COORD_TOLERANCE ∧
           overlapW pos q.position ∧ overlapD pos q.position)) ∧
    (∀ p q : Position,
      boxes_overlap p q = true ↔ overlapW p q ∧ overlapD p q ∧ overlapH p q) := by
  constructor
  · intro pos container placed
    by_cases hf : |pos.startCoordinates.height| < COORD_TOLERANCE
    · simp [is_stable, hf]
    · simp [is_stable, hf, List.any_eq_true, overlapW, overlapD, axis_overlap,
        not_or, and_assoc]
  · intro p q
    simp [boxes_overlap, overlapW, overlapD, overlapH, axis_overlap, not_or,
      and_assoc]

/-- C10: on every input the returned `rearrangements` list is empty — the
source's Phase 2 is a stub that never records a `RearrangementStep`. -/
theorem C10_rearrangements_always_empty
    (sortImpl : List ItemData → List ItemData)
    (items_to_place_input : List ItemData)
    (containers_input : List ContainerData)
    (current_db_placements : List (String × List PlacementInfo)) :
    (suggest_placements_cpp sortImpl items_to_place_input containers_input
        current_db_placements).rearrangements = [] := rfl

/-- C3 (amended): on §8 scenario 1 the engine succeeds with no
rearrangements and exactly one placement for A in C1 — at the
lexicographically first valid spot of the fixed search order, which for this
low-priority item (depth iterated descending, `Δd = 0.4`, first candidate
`d₀ = 9.6` clamped to `7`) is `start = (0, 7, 0)`, `end = (2, 10, 1)` —
not `start = (0, 0, 0)`, `end = (2, 3, 1)`. -/
theorem C3_scenario1_first_spot (sortImpl : List ItemData → List ItemData)
    (hs : StdSortOk sortImpl) :
    suggest_placements_cpp sortImpl [scn1_itemA] [scn1_contC1] [] =
      ⟨true, none, [⟨"A", "C1", ⟨⟨0, 7, 0⟩, ⟨2, 10, 1⟩⟩⟩], [], []⟩ := by
  rw [suggest_congr sortImpl stableSortByPriority _ _ _
    (by rw [hs.sort_singleton, stdSortOk_stable.sort_singleton])]
  exact run_scn1

/-- Witness for C3: instantiated at the conforming sort `stableSortByPriority`. -/
theorem C3_scenario1_first_spot_witness :
    suggest_placements_cpp stableSortByPriority [scn1_itemA] [scn1_contC1] [] =
      ⟨true, none, [⟨"A", "C1", ⟨⟨0, 7, 0⟩, ⟨2, 10, 1⟩⟩⟩], [], []⟩ :=
  C3_scenario1_first_spot stableSortByPriority stdSortOk_stable

/-- Counterexample to C3 as stated: the single returned placement is not at
`start = (0, 0, 0)`, `end = (2, 3, 1)` (its depth interval is `[7, 10]`). -/
theorem C3_scenario1_not_at_origin :
    (suggest_placements_cpp stableSortByPriority [scn1_itemA] [scn1_contC1]
        []).placements ≠ [⟨"A", "C1", ⟨⟨0, 0, 0⟩, ⟨2, 3, 1⟩⟩⟩] := by
  rw [run_scn1]
  intro h
  have h7 : (7 : ℚ) = 0 := congrArg
    (fun l => ((l.headD ⟨"", "", ⟨⟨0, 0, 0⟩, ⟨0, 0, 0⟩⟩⟩).position.startCoordinates.depth)) h
  norm_num at h7

/-- C4: evaluation of the code on §8 scenario 4 (the claim's rearrangement
scenario): the engine emits *no* rearrangement step — Phase 2 is a stub — and
instead stacks H on top of L in C1 at `(0,0,1)-(4,4,3)`, leaving L in C1. -/
theorem C4_scenario4_no_rearrangement_emitted :
    suggest_placements_cpp stableSortByPriority [scn4_itemH]
        [scn4_contC1, scn4_contC2] [("C1", [scn4_itemL])] =
      ⟨true, none,
       [⟨"H", "C1", ⟨⟨0, 0, 1⟩, ⟨4, 4, 3⟩⟩⟩,
        ⟨"L", "C1", ⟨⟨0, 0, 0⟩, ⟨4, 4, 1⟩⟩⟩],
       [], []⟩ :=
  run_scn4

/-- C5 (amended): the engine performs no input validation.  On an input
violating the §6 invariants (a live placement whose container id `CX` is not
among the job's containers) it does not fail: it returns `success = true`,
no `error`, the dangling placement passed through, and empty
`failedItemIds`. -/
theorem C5_no_input_validation :
    suggest_placements_cpp stableSortByPriority [] [inv5_contC1]
        [("CX", [inv5_ghost])] =
      ⟨true, none, [⟨"P1", "CX", ⟨⟨0, 0, 0⟩, ⟨1, 1, 1⟩⟩⟩], [], []⟩ :=
  run_inv5

/-- Counterexample to C5 as stated: on this invariant-violating input the
engine returns `success = true`, not the claimed `success = false` with an
explanatory error and empty placements. -/
theorem C5_invalid_input_not_rejected :
    (suggest_placements_cpp stableSortByPriority [] [inv5_contC1]
        [("CX", [inv5_ghost])]).success = true := by
  rw [run_inv5]

/-- C8: on every input, `success == failedItemIds.empty()`; when failures
exist the error is exactly `"Placement incomplete. Failed items: "` followed
by the failed ids joined with `", "`; when there is no failure the error is
absent. -/
theorem C8_success_iff_no_failed
    (sortImpl : List ItemData → List ItemData)
    (items_to_place_input : List ItemData)
    (containers_input : List ContainerData)
    (current_db_placements : List (String × List PlacementInfo)) :
    (suggest_placements_cpp sortImpl items_to_place_input containers_input
        current_db_placements).success =
      (suggest_placements_cpp sortImpl items_to_place_input containers_input
        current_db_placements).failedItemIds.isEmpty ∧
    (suggest_placements_cpp sortImpl items_to_place_input containers_input
        current_db_placements).error =
      (if (suggest_placements_cpp sortImpl items_to_place_input containers_input
            current_db_placements).failedItemIds = [] then none
       else some ("Placement incomplete. Failed items: " ++
         joinFailedIds (suggest_placements_cpp sortImpl items_to_place_input
           containers_input current_db_placements).failedItemIds)) := by
  unfold suggest_placements_cpp
  exact assembleOutput_flags _
    (foldlPreserves _ OutFlagsOk (phase3Step_flags _ _) _ _ ⟨rfl, fun _ => rfl⟩)

/-- C6 (amended): the engine sorts with `std::sort`, whose contract fixes
only a priority-descending permutation.  Both an input-stable sort and a
sort that reverses equal-priority neighbours satisfy that contract, and the
two conforming behaviours produce different outputs on a job with two
equal-priority items — so equal-priority items are *not* guaranteed to be
processed in input order. -/
theorem C6_priority_descending_ties_unspecified :
    StdSortOk stableSortByPriority ∧ StdSortOk tieSwapSortByPriority ∧
    suggest_placements_cpp tieSwapSortByPriority [tie_itemA, tie_itemB]
        [tie_cont] [] ≠
      suggest_placements_cpp stableSortByPriority [tie_itemA, tie_itemB]
        [tie_cont] [] := by
  refine ⟨stdSortOk_stable, stdSortOk_tieSwap, ?_⟩
  rw [run_tie_swap, run_tie_stable]
  intro h
  have h1 : (1 : ℚ) = 0 := congrArg
    (fun o => ((o.placements.headD
      ⟨"", "", ⟨⟨0, 0, 0⟩, ⟨0, 0, 0⟩⟩⟩).position.startCoordinates.width)) h
  norm_num at h1

/-- Counterexample to C6 as stated: `tieSwapSortByPriority` satisfies the
`std::sort` postcondition the code relies on, yet orders the two
equal-priority incoming items against their input order, and the engine run
with it places item A at a different spot than the input-stable order
predicts. -/
theorem C6_tie_order_not_input_stable :
    StdSortOk tieSwapSortByPriority ∧
    tieSwapSortByPriority [tie_itemA, tie_itemB] = [tie_itemB, tie_itemA] ∧
    (suggest_placements_cpp tieSwapSortByPriority [tie_itemA, tie_itemB]
        [tie_cont] []).placements =
      [⟨"A", "C", ⟨⟨1, 4, 0⟩, ⟨2, 5, 1⟩⟩⟩,
       ⟨"B", "C", ⟨⟨0, 4, 0⟩, ⟨1, 5, 1⟩⟩⟩] := by
  refine ⟨stdSortOk_tieSwap, ?_, ?_⟩
  · with_unfolding_all rfl
  · rw [run_tie_swap]

/-- C7: every incoming item id appears either among the `itemId`s of the
returned `placements` or in `failedItemIds` — never in both, never in
neither. -/
theorem C7_placed_xor_failed (sortImpl : List ItemData → List ItemData)
    (hs : StdSortOk sortImpl)
    (items_to_place_input : List ItemData)
    (containers_input : List ContainerData)
    (current_db_placements : List (String × List PlacementInfo))
    (id : String) (hid : ∃ it ∈ items_to_place_input, it.itemId = id) :
    (∃ p ∈ (suggest_placements_cpp sortImpl items_to_place_input
        containers_input current_db_placements).placements, p.itemId = id) ↔
      id ∉ (suggest_placements_cpp sortImpl items_to_place_input
        containers_input current_db_placements).failedItemIds := by
  obtain ⟨it, hit, rfl⟩ := hid
  have hit' : it ∈ sortImpl items_to_place_input :=
    ((hs items_to_place_input).1.mem_iff).mpr hit
  simp only [suggest_placements_cpp]
  exact completeness_core _ _ _ _ _ (finalSeedOf_wellKeyed _) _ rfl _ rfl it hit'

/-- Witness for C7 at a concrete input (the §8 scenario-1 job). -/
theorem C7_placed_xor_failed_witness :
    (∃ p ∈ (suggest_placements_cpp stableSortByPriority [scn1_itemA]
        [scn1_contC1] []).placements, p.itemId = "A") ↔
      "A" ∉ (suggest_placements_cpp stableSortByPriority [scn1_itemA]
        [scn1_contC1] []).failedItemIds :=
  C7_placed_xor_failed stableSortByPriority stdSortOk_stable [scn1_itemA]
    [scn1_contC1] [] "A" ⟨scn1_itemA, List.mem_singleton.mpr rfl, rfl⟩

/-- C9: with an empty incoming-item list and a valid `currentPlacements`
map (unique container keys, globally unique placed item ids), the engine
returns exactly the live placements (same `itemId`, `containerId`,
`position` for every live placement), zero rearrangements and
`success = true`. -/
theorem C9_empty_items_passthrough
    (sortImpl : List ItemData → List ItemData) (hs : StdSortOk sortImpl)
    (containers_input : List ContainerData)
    (current_db_placements : List (String × List PlacementInfo))
    (hkeys : (current_db_placements.map Prod.fst).Nodup)
    (hids : (current_db_placements.flatMap
      (fun pr => pr.2.map (·.itemId))).Nodup) :
    (suggest_placements_cpp sortImpl [] containers_input
      current_db_placements).placements.Perm
      (current_db_placements.flatMap (fun pr => pr.2.map (fun pi =>
        (⟨pi.itemId, pr.1, pi.position⟩ : PlacementResult)))) ∧
    (suggest_placements_cpp sortImpl [] containers_input
      current_db_placements).rearrangements = [] ∧
    (suggest_placements_cpp sortImpl [] containers_input
      current_db_placements).success = true := by
  have hout : suggest_placements_cpp sortImpl [] containers_input
      current_db_placements =
      assembleOutput ⟨StrMap.ofList current_db_placements, [],
        finalSeedOf (StrMap.ofList current_db_placements), [], true, none⟩ := by
    simp only [suggest_placements_cpp, hs.sort_nil, List.foldl_nil]
  rw [hout]
  refine ⟨?_, rfl, rfl⟩
  have h := foldl_insert_perm Prod.fst Prod.snd current_db_placements []
    hkeys (by simp)
  have hmap_id : current_db_placements.map (fun b => (b.1, b.2)) =
      current_db_placements := List.map_id' _
  rw [List.nil_append, hmap_id] at h
  have hdb : (StrMap.ofList current_db_placements).Perm
      current_db_placements := h
  have hids_db : ((StrMap.ofList current_db_placements).flatMap
      (fun pr => pr.2.map (·.itemId))).Nodup :=
    ((hdb.flatMap_right (fun pr => pr.2.map (·.itemId))).nodup_iff).mpr hids
  have hseed := seed_fold_perm (StrMap.ofList current_db_placements) []
    hids_db (by simp)
  have hplac : (assembleOutput ⟨StrMap.ofList current_db_placements, [],
      finalSeedOf (StrMap.ofList current_db_placements), [], true,
      none⟩).placements =
      (StrMap.toList (finalSeedOf
        (StrMap.ofList current_db_placements))).map (·.2) := by
    simp [assembleOutput]
  rw [hplac]
  have h2 := hseed.map (fun kv : String × PlacementResult => kv.2)
  refine h2.trans ?_
  rw [List.nil_append, List.map_flatMap]
  simp only [List.map_map, Function.comp_def]
  exact hdb.flatMap_right _

/-- Witness for C9: a one-container, one-placement live state is passed
through unchanged. -/
theorem C9_empty_items_passthrough_witness :
    (suggest_placements_cpp stableSortByPriority [] [float_cont]
      [("C", [float_placement])]).placements.Perm
      ([("C", [float_placement])].flatMap (fun pr => pr.2.map (fun pi =>
        (⟨pi.itemId, pr.1, pi.position⟩ : PlacementResult)))) ∧
    (suggest_placements_cpp stableSortByPriority [] [float_cont]
      [("C", [float_placement])]).rearrangements = [] ∧
    (suggest_placements_cpp stableSortByPriority [] [float_cont]
      [("C", [float_placement])]).success = true :=
  C9_empty_items_passthrough stableSortByPriority stdSortOk_stable
    [float_cont] [("C", [float_placement])] (by simp)
    (by simp [float_placement])

/-- C1 (amended): if the inputs satisfy the §6 invariants (unique ids,
placements in-bounds in an existing container, pairwise non-overlapping,
positive dimensions) *and additionally every current placement is stable
against the others in its container*, then after `suggest_placements_cpp`
returns: the final placements within each container are pairwise
non-overlapping under `boxes_overlap`, every final placement lies inside its
container's cavity within ε on every axis, and every final placement
satisfies `is_stable` against the other final placements in its container. -/
theorem C1_output_geometry
    (sortImpl : List ItemData → List ItemData) (hs : StdSortOk sortImpl)
    (items_to_place_input : List ItemData)
    (containers_input : List ContainerData)
    (current_db_placements : List (String × List PlacementInfo))
    (hu : UniqueIds items_to_place_input containers_input current_db_placements)
    (hv : ValidCurrentPlacements containers_input current_db_placements)
    (hdims : ItemDimsPositive items_to_place_input) :
    (∀ p ∈ (suggest_placements_cpp sortImpl items_to_place_input
        containers_input current_db_placements).placements,
      ∀ q ∈ (suggest_placements_cpp sortImpl items_to_place_input
        containers_input current_db_placements).placements,
      p.itemId ≠ q.itemId → p.containerId = q.containerId →
      boxes_overlap p.position q.position = false) ∧
    (∀ p ∈ (suggest_placements_cpp sortImpl items_to_place_input
        containers_input current_db_placements).placements,
      ∃ c, StrMap.find? p.containerId (containersMapOf containers_input) =
        some c ∧ in_bounds p.position c) ∧
    (∀ p ∈ (suggest_placements_cpp sortImpl items_to_place_input
        containers_input current_db_placements).placements,
      ∃ c, StrMap.find? p.containerId (containersMapOf containers_input) =
        some c ∧
        is_stable p.position c
          (((suggest_placements_cpp sortImpl items_to_place_input
            containers_input current_db_placements).placements.filter (fun q =>
              q.containerId == p.containerId && q.itemId != p.itemId)).map
            resultAsInfo) = true) := by
  obtain ⟨hcnd, hind, hdisj⟩ := hu
  have hperm := (hs items_to_place_input).1
  have hcm := containersMapOf_total hcnd
  have hfresh : ∀ it ∈ sortImpl items_to_place_input,
      ¬SimHasId (StrMap.ofList current_db_placements) it.itemId := by
    intro it hit hhas
    obtain ⟨pr, hpr, pi, hpi, hid⟩ := simHasId_ofList hv.1 hhas
    exact hdisj it (hperm.mem_iff.mp hit) pr hpr pi hpi hid.symm
  have hdims' : ∀ it ∈ sortImpl items_to_place_input,
      0 < it.width ∧ 0 < it.depth ∧ 0 < it.height :=
    fun it hit => hdims it (hperm.mem_iff.mp hit)
  have hnodup' : ((sortImpl items_to_place_input).map (·.itemId)).Nodup :=
    ((hperm.map _).nodup_iff).mpr hind
  simp only [suggest_placements_cpp]
  set st0 : Phase1State :=
    ⟨StrMap.ofList current_db_placements, [],
      finalSeedOf (StrMap.ofList current_db_placements), []⟩ with hst0
  set st1 := (sortImpl items_to_place_input).foldl
    (phase1Step (containersMapOf containers_input)
      (containers_input.map (·.containerId))) st0 with hst1
  set st30 : Phase3State :=
    ⟨st1.sim, st1.processed, st1.finalMap, [], true, none⟩ with hst30
  set st3 := st1.pass2.foldl
    (phase3Step (containersMapOf containers_input)
      (containers_input.map (·.containerId))) st30 with hst3
  have h1 := phase1_fold_geo (containersMapOf containers_input)
    (containers_input.map (·.containerId)) hcm
    (sortImpl items_to_place_input) st0
    (db_simInv hcnd hv) (seed_agree hv.1 hv.2.1) hfresh hdims' hnodup'
    (fun it _ x hx => absurd hx (List.not_mem_nil x))
    (fun x hx => absurd hx (List.not_mem_nil x))
    (fun x hx => absurd hx (List.not_mem_nil x))
    (by simp)
  rw [← hst1] at h1
  obtain ⟨hSim1, hAgree1, hp1', hp2', hp3'⟩ := h1
  have h3 := phase3_fold_geo (containersMapOf containers_input)
    (containers_input.map (·.containerId)) hcm st1.pass2 st30
    hSim1 hAgree1 (fun kv _ pi _ h => absurd h (List.not_mem_nil _))
    hp1' hp2' hp3' (fun it _ h => absurd h (List.not_mem_nil _))
  rw [← hst3] at h3
  obtain ⟨hSim3, hAgree3, hNF3⟩ := h3
  have hWK1 : WellKeyed st1.finalMap := by
    rw [hst1]
    exact foldlPreserves _ (fun s : Phase1State => WellKeyed s.finalMap)
      (fun s a => phase1Step_wellKeyed _ _ s a) _ st0 (finalSeedOf_wellKeyed _)
  have hWK3 : WellKeyed st3.finalMap := by
    rw [hst3]
    exact foldlPreserves _ (fun s : Phase3State => WellKeyed s.finalMap)
      (fun s a => phase3Step_wellKeyed _ _ s a) _ st30 hWK1
  exact geo_core hSim3 hAgree3 hNF3 hWK3

/-- Witness for C1 at the §8 scenario-1 job. -/
theorem C1_output_geometry_witness :
    (∀ p ∈ (suggest_placements_cpp stableSortByPriority [scn1_itemA]
        [scn1_contC1] []).placements,
      ∀ q ∈ (suggest_placements_cpp stableSortByPriority [scn1_itemA]
        [scn1_contC1] []).placements,
      p.itemId ≠ q.itemId → p.containerId = q.containerId →
      boxes_overlap p.position q.position = false) ∧
    (∀ p ∈ (suggest_placements_cpp stableSortByPriority [scn1_itemA]
        [scn1_contC1] []).placements,
      ∃ c, StrMap.find? p.containerId (containersMapOf [scn1_contC1]) =
        some c ∧ in_bounds p.position c) ∧
    (∀ p ∈ (suggest_placements_cpp stableSortByPriority [scn1_itemA]
        [scn1_contC1] []).placements,
      ∃ c, StrMap.find? p.containerId (containersMapOf [scn1_contC1]) =
        some c ∧
        is_stable p.position c
          (((suggest_placements_cpp stableSortByPriority [scn1_itemA]
            [scn1_contC1] []).placements.filter (fun q =>
              q.containerId == p.containerId && q.itemId != p.itemId)).map
            resultAsInfo) = true) :=
  C1_output_geometry stableSortByPriority stdSortOk_stable [scn1_itemA]
    [scn1_contC1] []
    ⟨by simp, by simp, by intro it _ pr hpr; simp at hpr⟩
    ⟨by simp, by simp, by intro pr hpr; simp at hpr⟩
    (by
      intro it hit
      rw [List.mem_singleton] at hit
      subst hit
      refine ⟨?_, ?_, ?_⟩ <;> norm_num [scn1_itemA])

/-- Counterexample to C1 as stated: this input satisfies the §6 invariants
named by the claim (the single live placement is in-bounds with positive
extent, ids unique, nothing overlaps), yet the engine's output contains that
placement and it does not satisfy `is_stable` against the other (zero)
placements of its container — the claim omits stability of the *input*
placements from its hypotheses. -/
theorem C1_floating_input_unstable_output :
    in_bounds float_placement.position float_cont ∧
    posPositive float_placement.position ∧
    (suggest_placements_cpp stableSortByPriority [] [float_cont]
        [("C", [float_placement])]).placements =
      [⟨"F", "C", ⟨⟨0, 0, 5⟩, ⟨1, 1, 6⟩⟩⟩] ∧
    is_stable (⟨⟨0, 0, 5⟩, ⟨1, 1, 6⟩⟩ : Position) float_cont [] = false := by
  refine ⟨?_, ?_, ?_, ?_⟩
  · unfold in_bounds float_placement float_cont COORD_TOLERANCE
    norm_num
  · unfold posPositive float_placement
    norm_num
  · rw [run_float]
  · with_unfolding_all rfl


end PlacementService
